import Mathlib

/-!
Verification development for the Rustache synchronization engine
(`src/client.rs`, `src/model/adapter.rs`).

Shallow embedding conventions:
* Instants (`chrono::DateTime<Utc>`) are modelled as `Int` (seconds).
  The chrono formatting/parsing routines (`format("%Y%m%dT%H%M%SZ")` and
  the `NaiveDate`/`NaiveDateTime` parsers) are external library code; they
  are modelled as function parameters bundled in `ChronoExt`, with the
  round-trip facts they provide stated as hypotheses where needed.
* iCalendar documents are modelled as lists of content lines
  (`List String`); RFC-5545 line folding/unfolding performed by the
  external `icalendar` crate on write/read is elided, since it is an
  inverse pair.  Values are assumed single-line where relevant.
* String helpers mirror the Rust `str` operations used by the source
  (`contains`, `starts_with`, `ends_with`, `split_once`, `split`, `trim`,
  `to_uppercase`, `replace`), implemented structurally so that concrete
  instances evaluate in the kernel.
-/

set_option autoImplicit false

namespace Rustache

/-! ### String helpers (models of the Rust `str` operations used) -/

/-- Model of Rust `str::contains` on `List Char`: some suffix of `s` has
`pat` as a prefix. -/
def strContainsAux (pat : List Char) : List Char → Bool
  | [] => pat.isEmpty
  | c :: rest => List.isPrefixOf pat (c :: rest) || strContainsAux pat rest

/-- Model of Rust `s.contains(pat)`. -/
def strContains (s pat : String) : Bool :=
  strContainsAux pat.data s.data

/-- Model of Rust `s.starts_with(pat)`. -/
def startsWithS (s pat : String) : Bool :=
  List.isPrefixOf pat.data s.data

/-- Model of Rust `s.ends_with(pat)`. -/
def endsWithS (s pat : String) : Bool :=
  List.isSuffixOf pat.data s.data

/-- Model of Rust `s.split_once(':')`: the part before the first colon and
the part after it; `none` when there is no colon. -/
def splitOnceColon : List Char → Option (List Char × List Char)
  | [] => none
  | c :: rest =>
    if c = ':' then some ([], rest)
    else (splitOnceColon rest).map (fun p => (c :: p.1, p.2))

/-- Name part of a content line: the characters before the first `:` or `;`
(the property name as the `icalendar` parser sees it). -/
def lineName (l : String) : String :=
  String.mk (l.data.takeWhile (fun c => !(c == ':') && !(c == ';')))

/-- Value part of a content line: everything after the first `:`
(empty for a malformed line, which the real parser would reject; no
claim depends on malformed lines). -/
def lineValue (l : String) : String :=
  match splitOnceColon l.data with
  | some p => String.mk p.2
  | none => ""

/-- Build the content line `name ++ ":" ++ value`. -/
def mkLine (name value : String) : String :=
  name ++ ":" ++ value

/-- ASCII whitespace test (model of `char::is_whitespace` on the
characters that occur here). -/
def isWsChar (c : Char) : Bool :=
  c == ' ' || c == '\t' || c == '\n' || c == '\r'

/-- Model of Rust `str::trim`. -/
def trimS (s : String) : String :=
  String.mk (((s.data.dropWhile isWsChar).reverse.dropWhile isWsChar).reverse)

/-- ASCII uppercase of one character (model of `char::to_uppercase` on the
ASCII range, the only one used by the source's comparisons). -/
def upChar (c : Char) : Char :=
  if 'a' ≤ c ∧ c ≤ 'z' then Char.ofNat (c.toNat - 32) else c

/-- Model of Rust `str::to_uppercase` (ASCII). -/
def toUpperS (s : String) : String :=
  String.mk (s.data.map upChar)

/-- Worker for `splitComma`. -/
def splitCommaAux : List Char → List Char → List String
  | [], cur => [String.mk cur.reverse]
  | c :: rest, cur =>
    if c = ',' then String.mk cur.reverse :: splitCommaAux rest []
    else splitCommaAux rest (c :: cur)

/-- Model of Rust `s.split(',')` (keeps empty pieces, as Rust does). -/
def splitComma (s : String) : List String :=
  splitCommaAux s.data []

/-- Model of Rust `c.replace(',', "\\,")` used when encoding categories. -/
def replaceCommaEsc (s : String) : String :=
  String.mk (replaceCommaEscAux s.data)
where
  replaceCommaEscAux : List Char → List Char
    | [] => []
    | c :: rest =>
      if c = ',' then '\\' :: ',' :: replaceCommaEscAux rest
      else c :: replaceCommaEscAux rest

/-- Model of Rust `Vec::join(",")`. -/
def joinComma : List String → String
  | [] => ""
  | [c] => c
  | c :: rest => c ++ "," ++ joinComma rest

/-- Byte-lexicographic comparison used by Rust `Vec<String>::sort`
(membership in the sorted list is all that is ever used, so the exact
order relation is immaterial to the theorems). -/
def lexLeB : List Char → List Char → Bool
  | [], _ => true
  | _ :: _, [] => false
  | a :: as_, b :: bs =>
    if a = b then lexLeB as_ bs else decide (a.toNat < b.toNat)

/-- String comparison for `sortStr`. -/
def strLeB (a b : String) : Bool := lexLeB a.data b.data

/-- Insert into a sorted list. -/
def insertSorted (x : String) : List String → List String
  | [] => [x]
  | y :: rest => if strLeB x y then x :: y :: rest else y :: insertSorted x rest

/-- Model of Rust `Vec<String>::sort` (insertion sort; only membership is
used by the theorems). -/
def sortStr : List String → List String
  | [] => []
  | x :: rest => insertSorted x (sortStr rest)

/-- Model of Rust `Vec::dedup` (removes consecutive duplicates). -/
def dedupConsec : List String → List String
  | [] => []
  | [x] => [x]
  | x :: y :: rest =>
    if x = y then dedupConsec (y :: rest) else x :: dedupConsec (y :: rest)

/-- Digit-string to `Nat` (worker for `strToNat?`). -/
def digitsToNatAux : List Char → Nat → Option Nat
  | [], acc => some acc
  | c :: rest, acc =>
    if '0' ≤ c ∧ c ≤ '9' then digitsToNatAux rest (acc * 10 + (c.toNat - 48))
    else none

/-- Model of Rust `str::parse::<uN>` restricted to plain digit strings
(the only shapes produced or consumed here). -/
def strToNat? (s : String) : Option Nat :=
  if s.data.isEmpty then none else digitsToNatAux s.data 0

/-! ### Data model (`src/model/item.rs` is not under `src/`; the `Task`
field list is reconstructed from the constructor in
`src/model/adapter.rs::from_ics` and the uses in `client.rs`) -/

/-- Task status, `TaskStatus` in the source. -/
inductive TaskStatus where
  | NeedsAction
  | InProcess
  | Completed
  | Cancelled
deriving DecidableEq, Repr

/-- The `Task` value type.  Instants are `Int` seconds; `estimated_duration`
is minutes, as in the source. -/
structure Task where
  uid : String
  summary : String
  description : String
  status : TaskStatus
  priority : Nat
  due : Option Int
  dtstart : Option Int
  estimated_duration : Option Nat
  rrule : Option String
  parent_uid : Option String
  dependencies : List String
  categories : List String
  calendar_href : String
  href : String
  etag : String
  depth : Nat
deriving DecidableEq, Repr

/-- Calendar list entry (`CalendarListEntry` in the source). -/
structure CalendarListEntry where
  name : String
  href : String
  color : Option String
deriving DecidableEq, Repr

/-- Pending offline mutation (`journal::Action`, a tagged union carrying a
full `Task` snapshot).  Modelled from the spec: `src/journal.rs` is not
under `src/`. -/
inductive Action where
  | Create (t : Task)
  | Update (t : Task)
  | Delete (t : Task)
deriving DecidableEq, Repr

/-- Modelled from the spec: `src/storage.rs` (not under `src/`) defines the
reserved local-calendar sentinel `LOCAL_CALENDAR_HREF`, checked by exact
string equality throughout the engine.  The literal value is immaterial. -/
def LOCAL_CALENDAR_HREF : String := "local"

/-- External chrono/now bundle: `Utc::now()` plus the chrono date codec
(`format("%Y%m%dT%H%M%SZ")`, and the `%Y%m%d` / `%Y%m%dT%H%M%SZ` /
`%Y%m%dT%H%M%S` parsers).  These are external library functions; theorems
state the round-trip facts they provide as hypotheses. -/
structure ChronoExt where
  now : Int
  fmt : Int → String
  parse16 : String → Option Int
  parse8 : String → Option Int
  parseLocal : String → Option Int

/-! ### Document codec (`src/model/adapter.rs`) -/

/-- Status keyword written by `to_ics` (via `icalendar::TodoStatus`). -/
def statusLine : TaskStatus → String
  | .NeedsAction => "NEEDS-ACTION"
  | .InProcess => "IN-PROCESS"
  | .Completed => "COMPLETED"
  | .Cancelled => "CANCELLED"

/-- The `format_iso_duration` helper inside `to_ics`. -/
def format_iso_duration (mins : Nat) : String :=
  if mins % (24 * 60) = 0 then "P" ++ toString (mins / (24 * 60)) ++ "D"
  else if mins % 60 = 0 then "PT" ++ toString (mins / 60) ++ "H"
  else "PT" ++ toString mins ++ "M"

/-- DESCRIPTION line group of `to_ics` (emitted only when nonempty). -/
def descLines (t : Task) : List String :=
  if t.description = "" then [] else [mkLine "DESCRIPTION" t.description]

/-- DTSTART line group of `to_ics`. -/
def dtstartLines (ext : ChronoExt) (t : Task) : List String :=
  match t.dtstart with
  | some i => [mkLine "DTSTART" (ext.fmt i)]
  | none => []

/-- DUE / X-ESTIMATED-DURATION / DURATION line group of `to_ics`:
with a due date the estimate goes to `X-ESTIMATED-DURATION`, otherwise to
the standard `DURATION`. -/
def dueLines (ext : ChronoExt) (t : Task) : List String :=
  match t.due with
  | some i =>
    [mkLine "DUE" (ext.fmt i)] ++
      (match t.estimated_duration with
       | some m => [mkLine "X-ESTIMATED-DURATION" (format_iso_duration m)]
       | none => [])
  | none =>
    match t.estimated_duration with
    | some m => [mkLine "DURATION" (format_iso_duration m)]
    | none => []

/-- PRIORITY line group of `to_ics` (only when positive). -/
def priorityLines (t : Task) : List String :=
  if t.priority > 0 then [mkLine "PRIORITY" (toString t.priority)] else []

/-- RRULE line group of `to_ics`. -/
def rruleLines (t : Task) : List String :=
  match t.rrule with
  | some r => [mkLine "RRULE" r]
  | none => []

/-- RELATED-TO line group of `to_ics`: one unparameterized line for the
parent, one `RELTYPE=DEPENDS-ON` line per dependency. -/
def relatedLines (t : Task) : List String :=
  (match t.parent_uid with
   | some p => [mkLine "RELATED-TO" p]
   | none => []) ++
  t.dependencies.map (fun d => mkLine "RELATED-TO;RELTYPE=DEPENDS-ON" d)

/-- CATEGORIES line of `to_ics`, injected manually before `END:VTODO`:
commas inside a category are escaped, categories joined with commas. -/
def categoriesLines (t : Task) : List String :=
  if t.categories = [] then []
  else [mkLine "CATEGORIES" (joinComma (t.categories.map replaceCommaEsc))]

/-- The VTODO component lines of `to_ics` (everything between
`BEGIN:VTODO` and `END:VTODO`, with the manually injected CATEGORIES line
last, immediately before `END:VTODO`). -/
def innerLines (ext : ChronoExt) (t : Task) : List String :=
  descLines t ++
  [mkLine "DTSTAMP" (ext.fmt ext.now)] ++
  dtstartLines ext t ++
  dueLines ext t ++
  priorityLines t ++
  rruleLines t ++
  [mkLine "STATUS" (statusLine t.status),
   mkLine "SUMMARY" t.summary,
   mkLine "UID" t.uid] ++
  relatedLines t ++
  categoriesLines t

/-- Embedding of `Task::to_ics`.  The document is the list of content
lines; the serialization order of the single-valued properties follows the
`icalendar` crate's map order, which no parser behavior depends on. -/
def to_ics (ext : ChronoExt) (t : Task) : List String :=
  ["BEGIN:VCALENDAR", "VERSION:2.0", "PRODID:ICALENDAR-RS",
   "CALSCALE:GREGORIAN", "BEGIN:VTODO"] ++
  innerLines ext t ++
  ["END:VTODO", "END:VCALENDAR"]

/-- Lines of the first VTODO component (between `BEGIN:VTODO` and
`END:VTODO`), as the `icalendar` parser exposes them. -/
def vtodoBlock (doc : List String) : List String :=
  ((doc.dropWhile (fun l => !(l == "BEGIN:VTODO"))).drop 1).takeWhile
    (fun l => !(l == "END:VTODO"))

/-- First property with the given name in a line list (the encoder emits
every single-valued name at most once, so first-wins equals the parser's
map semantics). -/
def getProp : List String → String → Option String
  | [], _ => none
  | l :: ls, n => if lineName l = n then some (lineValue l) else getProp ls n

/-- Whether a parsed calendar has a VTODO component. -/
def hasVTodo (doc : List String) : Bool :=
  doc.contains "BEGIN:VTODO"

/-- Status decoding branch of `from_ics`. -/
def decodeStatus (block : List String) : TaskStatus :=
  match getProp block "STATUS" with
  | none => .NeedsAction
  | some v =>
    let u := toUpperS (trimS v)
    if u = "COMPLETED" then .Completed
    else if u = "IN-PROCESS" then .InProcess
    else if u = "CANCELLED" then .Cancelled
    else .NeedsAction

/-- The `parse_date_prop` closure of `from_ics`: 8-character values are
date-only (start of day), otherwise a datetime with or without the `Z`
suffix. -/
def parse_date_prop (ext : ChronoExt) (val : String) : Option Int :=
  if val.data.length = 8 then ext.parse8 val
  else if val.data.getLast? = some 'Z' then ext.parse16 val
  else ext.parseLocal val

/-- DUE decoding of `from_ics`: an 8-character date-only value maps to end
of day (23:59:59 past midnight), otherwise `parse_date_prop`. -/
def decodeDue (ext : ChronoExt) (block : List String) : Option Int :=
  (getProp block "DUE").bind (fun v =>
    if v.data.length = 8 then (ext.parse8 v).map (fun i => i + 86399)
    else parse_date_prop ext v)

/-- Numeric value of the `parse_dur` digit buffer: `parse::<u32>` with
overflow mapped to 0 by `unwrap_or(0)`. -/
def durBufVal (buf : List Char) : Nat :=
  match digitsToNatAux buf 0 with
  | some n => if n < 4294967296 then n else 0
  | none => 0

/-- Worker of the `parse_dur` closure of `from_ics` (character scan with a
digit buffer and an in-time flag). -/
def parseDurGo : List Char → Nat → List Char → Bool → Nat
  | [], mins, _, _ => mins
  | c :: rest, mins, buf, inTime =>
    if c = 'T' then parseDurGo rest mins buf true
    else if c.isDigit then parseDurGo rest mins (buf ++ [c]) inTime
    else if buf ≠ [] then
      let n := durBufVal buf
      let add :=
        if c = 'D' then n * 24 * 60
        else if c = 'H' then (if inTime then n * 60 else 0)
        else if c = 'M' then (if inTime then n else 0)
        else if c = 'W' then n * 7 * 24 * 60
        else 0
      parseDurGo rest (mins + add) [] inTime
    else parseDurGo rest mins buf inTime

/-- The `parse_dur` closure of `from_ics`. -/
def parse_dur (val : String) : Option Nat :=
  let m := parseDurGo val.data 0 [] false
  if m > 0 then some m else none

/-- Category decoding of `from_ics`: every CATEGORIES property value is
split on commas, trimmed, empties dropped; then the collected list is
sorted and consecutively deduplicated.  Note the split does not honor the
`\,` escape written by the encoder. -/
def decodeCategories (block : List String) : List String :=
  dedupConsec (sortStr
    ((block.filter (fun l => lineName l == "CATEGORIES")).flatMap
      (fun l => ((splitComma (lineValue l)).map trimS).filter
        (fun s => !(s == "")))))

/-- One line of the manual RELATED-TO scan of `from_ics`: parent uid
(last wins) and the `DEPENDS-ON` dependency list (order-preserving,
duplicate-dropping). -/
def relStep (st : Option String × List String) (l : String) :
    Option String × List String :=
  if startsWithS l "RELATED-TO" then
    match splitOnceColon l.data with
    | some kv =>
      let value := trimS (String.mk kv.2)
      let keyUpper := toUpperS (String.mk kv.1)
      if strContains keyUpper "RELTYPE=DEPENDS-ON" then
        (st.1, if st.2.contains value then st.2 else st.2 ++ [value])
      else if !(strContains keyUpper "RELTYPE=") ||
          strContains keyUpper "RELTYPE=PARENT" then
        (some value, st.2)
      else st
    | none => st
  else st

/-- The manual RELATED-TO scan of `from_ics` over the raw (unfolded)
document lines (the source's `for line in unfolded.lines()` loop). -/
def relScan (doc : List String) (st : Option String × List String) :
    Option String × List String :=
  doc.foldl relStep st

/-- Embedding of `Task::from_ics`. -/
def from_ics (ext : ChronoExt) (doc : List String)
    (etag href calendar_href : String) : Except String Task :=
  if hasVTodo doc then
    let block := vtodoBlock doc
    let rel := relScan doc (none, [])
    .ok {
      uid := (getProp block "UID").getD ""
      summary := (getProp block "SUMMARY").getD "No Title"
      description := (getProp block "DESCRIPTION").getD ""
      status := decodeStatus block
      priority :=
        match (getProp block "PRIORITY").bind strToNat? with
        | some n => if n ≤ 255 then n else 0
        | none => 0
      due := decodeDue ext block
      dtstart := (getProp block "DTSTART").bind (parse_date_prop ext)
      estimated_duration :=
        match (getProp block "X-ESTIMATED-DURATION").bind parse_dur with
        | some v => some v
        | none => (getProp block "DURATION").bind parse_dur
      rrule := getProp block "RRULE"
      parent_uid := rel.1
      dependencies := rel.2
      categories := decodeCategories block
      calendar_href := calendar_href
      href := href
      etag := etag
      depth := 0 }
  else .error "No VTODO"

/-! ### Recurrence respawn (`Task::respawn`) -/

/-- Embedding of `Task::respawn`.  The external `rrule` crate
(`RRuleSet::from_str` on `DTSTART:…\nRRULE:…` followed by `.all(2)`) is
modelled by the parameter `expand : rule → anchor → Option (List Int)`
(`none` for a parse failure); the external `Uuid::new_v4()` is modelled by
the parameter `freshUid`. -/
def respawn (expand : String → Int → Option (List Int)) (freshUid : String)
    (t : Task) : Option Task :=
  match t.rrule with
  | none => none
  | some rule =>
    match (match t.dtstart with | some s => some s | none => t.due) with
    | none => none
    | some seed =>
      match expand rule seed with
      | none => none
      | some dates =>
        if h : 1 < dates.length then
          let next_start := dates.get ⟨1, h⟩
          some { t with
            uid := freshUid
            href := ""
            etag := ""
            status := .NeedsAction
            dependencies := []
            dtstart := match t.dtstart with
              | some _ => some next_start
              | none => none
            due := match t.due with
              | some od => some (next_start + (od - seed))
              | none => none }
        else none

/-! ### Remote Collection capability and observable calls

The CalDAV transport (`libdav::CalDavClient`) is the external Remote
Collection capability.  Each operation is modelled as a response function
(a stateless per-call oracle), and every engine function additionally
returns the list of calls it made (`RCall`), so that "issues no request"
and "retries exactly once" are statable. -/

/-- One observable call made by the engine (remote operations and local
storage accesses). -/
inductive RCall where
  | listRes (cal : String)
  | multiget (cal : String) (hrefs : List String)
  | createRes (href : String) (body : List String)
  | updateRes (href : String) (body : List String) (etag : String)
  | deleteRes (href : String) (etag : String)
  | principal
  | homeSet (p : String)
  | findCals (home : String)
  | getPropCall (href : String)
  | localLoad
  | localSave (tasks : List Task)
deriving DecidableEq, Repr

/-- A resource in a PROPFIND listing: href plus optional etag. -/
structure Resource where
  href : String
  etag : Option String
deriving DecidableEq, Repr

/-- Body and etag of one fetched resource. -/
structure Content where
  data : List String
  etag : String
deriving DecidableEq, Repr

instance {ε α : Type} [DecidableEq ε] [DecidableEq α] :
    DecidableEq (Except ε α) := fun a b =>
  match a, b with
  | .ok x, .ok y =>
    if h : x = y then .isTrue (by rw [h])
    else .isFalse (by intro hc; cases hc; exact h rfl)
  | .error x, .error y =>
    if h : x = y then .isTrue (by rw [h])
    else .isFalse (by intro hc; cases hc; exact h rfl)
  | .ok _, .error _ => .isFalse (by intro hc; cases hc)
  | .error _, .ok _ => .isFalse (by intro hc; cases hc)

/-- One item of a multiget response: href plus fallible content. -/
structure FetchedItem where
  href : String
  content : Except String Content
deriving DecidableEq, Repr

/-- Response oracle for the Remote Collection capability.  Errors are the
`format!("{:?}", e)` strings the source matches on with `contains`. -/
structure Remote where
  basePath : String
  list_resources : String → Except String (List Resource)
  get_calendar_resources : String → List String → Except String (List FetchedItem)
  create_resource : String → List String → Except String (Option String)
  update_resource : String → List String → String → Except String (Option String)
  delete : String → String → Except String Unit
  find_current_user_principal : Except String (Option String)
  find_calendar_home_set : String → Except String (List String)
  find_calendars : String → Except String (List Resource)
  get_property : String → Except String (Option String)

/-- Engine-visible storage state.  Modelled from the spec: `LocalStorage`
(whole-collection load/save), `Journal` (disk FIFO: push appends,
pop-front removes the head) and `Cache` (per-calendar task snapshot and
calendar-list snapshot) live in `src/storage.rs`, `src/journal.rs`,
`src/cache.rs`, which are not under `src/`.  Disk failures are not
modelled. -/
structure EngineState where
  localStore : List Task
  journal : List Action
  cacheCals : List CalendarListEntry
  cacheTasks : String → List Task

/-- Result of a CRUD operation: the `Result`, the (possibly mutated)
`&mut Task`, the new storage state and the calls made. -/
structure CrudOut where
  res : Except String Unit
  task : Task
  st : EngineState
  trace : List RCall

/-- Result of `get_tasks`. -/
structure TasksOut where
  res : Except String (List Task)
  st : EngineState
  trace : List RCall

/-- Result of `toggle_task`. -/
structure ToggleOut where
  res : Except String (Task × Option Task)
  st : EngineState
  trace : List RCall

/-- Result of `connect_with_fallback` (client, calendars, tasks, active
href, warning). -/
structure ConnectOut where
  res : Except String (Option Remote × List CalendarListEntry × List Task ×
    Option String × Option String)
  st : EngineState
  trace : List RCall

/-- The `{uid}.ics` href computed by `create_task` (and journal replay of
a Create). -/
def fullHref (t : Task) : String :=
  if endsWithS t.calendar_href "/" then t.calendar_href ++ t.uid ++ ".ics"
  else t.calendar_href ++ "/" ++ t.uid ++ ".ics"

/-! ### Journal replay (`RustyClient::sync_journal`) -/

/-- Processing of the journal head entry: whether it resolves (pop) or
blocks, and the remote calls made.  This is the exhaustive match of
`sync_journal` over `Action`.  (On the 412 path the code also assigns the
fresh etag into the queued task, but the entry is popped in every such
branch, so the queue is unaffected.) -/
def processAction (c : Remote) (ext : ChronoExt) : Action → Bool × List RCall
  | .Create task =>
    let href := fullHref task
    let bytes := to_ics ext task
    match c.create_resource href bytes with
    | .ok _ => (true, [.createRes href bytes])
    | .error e =>
      if strContains e "412" || strContains e "PreconditionFailed" then
        (true, [.createRes href bytes])
      else (false, [.createRes href bytes])
  | .Update task =>
    let bytes := to_ics ext task
    match c.update_resource task.href bytes task.etag with
    | .ok _ => (true, [.updateRes task.href bytes task.etag])
    | .error e =>
      if strContains e "412" || strContains e "PreconditionFailed" then
        match c.get_calendar_resources task.calendar_href [task.href] with
        | .ok (item :: _) =>
          (match item.content with
           | .ok content =>
             (true, [.updateRes task.href bytes task.etag,
               .multiget task.calendar_href [task.href],
               .updateRes task.href bytes content.etag])
           | .error _ =>
             (true, [.updateRes task.href bytes task.etag,
               .multiget task.calendar_href [task.href]]))
        | .ok [] =>
          (true, [.updateRes task.href bytes task.etag,
            .multiget task.calendar_href [task.href]])
        | .error _ =>
          (true, [.updateRes task.href bytes task.etag,
            .multiget task.calendar_href [task.href]])
      else if strContains e "404" then
        (true, [.updateRes task.href bytes task.etag])
      else (false, [.updateRes task.href bytes task.etag])
  | .Delete task =>
    match c.delete task.href task.etag with
    | .ok _ => (true, [.deleteRes task.href task.etag])
    | .error e =>
      if strContains e "404" then (true, [.deleteRes task.href task.etag])
      else if strContains e "412" || strContains e "PreconditionFailed" then
        match c.get_calendar_resources task.calendar_href [task.href] with
        | .ok (item :: _) =>
          (match item.content with
           | .ok content =>
             (true, [.deleteRes task.href task.etag,
               .multiget task.calendar_href [task.href],
               .deleteRes task.href content.etag])
           | .error _ =>
             (true, [.deleteRes task.href task.etag,
               .multiget task.calendar_href [task.href]]))
        | .ok [] =>
          (true, [.deleteRes task.href task.etag,
            .multiget task.calendar_href [task.href]])
        | .error _ =>
          (true, [.deleteRes task.href task.etag,
            .multiget task.calendar_href [task.href]])
      else (false, [.deleteRes task.href task.etag])

/-- The replay loop of `sync_journal`: pop resolved heads in order; the
first blocked entry halts replay with the rest of the queue intact. -/
def syncJournalGo (c : Remote) (ext : ChronoExt) :
    List Action → List Action × List RCall
  | [] => ([], [])
  | a :: rest =>
    let pr := processAction c ext a
    if pr.1 then
      let rec_ := syncJournalGo c ext rest
      (rec_.1, pr.2 ++ rec_.2)
    else (a :: rest, pr.2)

/-- Embedding of `RustyClient::sync_journal`.  The `Result` is always
`Ok(())`; the new journal state and the trace are returned. -/
def sync_journal (client : Option Remote) (ext : ChronoExt)
    (st : EngineState) : EngineState × List RCall :=
  match st.journal with
  | [] => (st, [])
  | _ =>
    match client with
    | none => (st, [])
    | some c =>
      let r := syncJournalGo c ext st.journal
      ({ st with journal := r.1 }, r.2)

/-! ### CRUD with optimistic offline fallback -/

/-- Replace the first task with a matching uid
(`iter().position` + index assignment in the source). -/
def replaceFirstByUid : List Task → Task → List Task
  | [], _ => []
  | u :: rest, t =>
    if u.uid = t.uid then t :: rest else u :: replaceFirstByUid rest t

/-- Embedding of `RustyClient::create_task`. -/
def create_task (client : Option Remote) (ext : ChronoExt)
    (st : EngineState) (task : Task) : CrudOut :=
  if task.calendar_href = LOCAL_CALENDAR_HREF then
    let all := st.localStore ++ [task]
    ⟨.ok (), task, { st with localStore := all }, [.localLoad, .localSave all]⟩
  else
    match client with
    | some c =>
      let href := fullHref task
      let task1 := { task with href := href }
      let bytes := to_ics ext task1
      match c.create_resource href bytes with
      | .ok res =>
        let task2 := match res with
          | some newEtag => { task1 with etag := newEtag }
          | none => task1
        ⟨.ok (), task2, st, [.createRes href bytes]⟩
      | .error _ =>
        ⟨.ok (), task1, { st with journal := st.journal ++ [.Create task1] },
          [.createRes href bytes]⟩
    | none => ⟨.error "Offline", task, st, []⟩

/-- Embedding of `RustyClient::update_task`.  On the local path a missing
uid performs no save at all. -/
def update_task (client : Option Remote) (ext : ChronoExt)
    (st : EngineState) (task : Task) : CrudOut :=
  if task.calendar_href = LOCAL_CALENDAR_HREF then
    if st.localStore.any (fun u => u.uid == task.uid) then
      let all := replaceFirstByUid st.localStore task
      ⟨.ok (), task, { st with localStore := all }, [.localLoad, .localSave all]⟩
    else ⟨.ok (), task, st, [.localLoad]⟩
  else
    match client with
    | some c =>
      let bytes := to_ics ext task
      match c.update_resource task.href bytes task.etag with
      | .ok res =>
        let task2 := match res with
          | some newEtag => { task with etag := newEtag }
          | none => task
        ⟨.ok (), task2, st, [.updateRes task.href bytes task.etag]⟩
      | .error _ =>
        ⟨.ok (), task, { st with journal := st.journal ++ [.Update task] },
          [.updateRes task.href bytes task.etag]⟩
    | none => ⟨.error "Offline", task, st, []⟩

/-- Embedding of `RustyClient::delete_task`. -/
def delete_task (client : Option Remote) (ext : ChronoExt)
    (st : EngineState) (task : Task) : CrudOut :=
  if task.calendar_href = LOCAL_CALENDAR_HREF then
    let all := st.localStore.filter (fun u => !(u.uid == task.uid))
    ⟨.ok (), task, { st with localStore := all }, [.localLoad, .localSave all]⟩
  else
    match client with
    | some c =>
      match c.delete task.href task.etag with
      | .ok _ => ⟨.ok (), task, st, [.deleteRes task.href task.etag]⟩
      | .error _ =>
        ⟨.ok (), task, { st with journal := st.journal ++ [.Delete task] },
          [.deleteRes task.href task.etag]⟩
    | none => ⟨.error "Offline", task, st, []⟩

/-- Embedding of `RustyClient::toggle_task` (status flip, recurrence
respawn, then persistence; `expand`/`freshUid` model the external rrule
and uuid crates used by `respawn`). -/
def toggle_task (client : Option Remote)
    (expand : String → Int → Option (List Int)) (freshUid : String)
    (ext : ChronoExt) (st : EngineState) (task : Task) : ToggleOut :=
  let task1 := { task with
    status := if task.status = .Completed then .NeedsAction else .Completed }
  let next := if task1.status = .Completed
    then respawn expand freshUid task1 else none
  if task1.calendar_href = LOCAL_CALENDAR_HREF then
    let all0 := if st.localStore.any (fun u => u.uid == task1.uid)
      then replaceFirstByUid st.localStore task1 else st.localStore
    let all1 := match next with
      | some n => all0 ++ [n]
      | none => all0
    ⟨.ok (task1, next), { st with localStore := all1 },
      [.localLoad, .localSave all1]⟩
  else
    match next with
    | some n =>
      let o1 := create_task client ext st n
      match o1.res with
      | .error e => ⟨.error e, o1.st, o1.trace⟩
      | .ok _ =>
        let o2 := update_task client ext o1.st task1
        match o2.res with
        | .error e => ⟨.error e, o2.st, o1.trace ++ o2.trace⟩
        | .ok _ => ⟨.ok (o2.task, some o1.task), o2.st, o1.trace ++ o2.trace⟩
    | none =>
      let o2 := update_task client ext st task1
      match o2.res with
      | .error e => ⟨.error e, o2.st, o2.trace⟩
      | .ok _ => ⟨.ok (o2.task, none), o2.st, o2.trace⟩

/-! ### Delta sync (`RustyClient::get_tasks`) -/

/-- Insert-or-replace into the href-keyed cache map (`HashMap::insert`). -/
def insertMap : List (String × Task) → String → Task → List (String × Task)
  | [], k, v => [(k, v)]
  | p :: rest, k, v =>
    if p.1 = k then (k, v) :: rest else p :: insertMap rest k v

/-- Build the cache map keyed by href (`cache_map` in the source). -/
def buildMap (ts : List Task) : List (String × Task) :=
  ts.foldl (fun m t => insertMap m t.href t) []

/-- Remove-and-return by key (`HashMap::remove`). -/
def removeKey : List (String × Task) → String → Option Task × List (String × Task)
  | [], _ => (none, [])
  | p :: rest, k =>
    if p.1 = k then (some p.2, rest)
    else
      let r := removeKey rest k
      (r.1, p :: r.2)

/-- The delta loop of `get_tasks` over the remote resource listing:
returns (kept cached tasks, hrefs to fetch, leftover cache map — the
entries deleted upstream, which are silently dropped). -/
def deltaLoop : List Resource → List (String × Task) →
    List Task × List String × List (String × Task)
  | [], m => ([], [], m)
  | r :: rs, m =>
    if endsWithS r.href ".ics" then
      match removeKey m r.href with
      | (some localTask, m') =>
        (match r.etag with
         | some re =>
           if re ≠ "" ∧ re = localTask.etag then
             let rest := deltaLoop rs m'
             (localTask :: rest.1, rest.2.1, rest.2.2)
           else
             let rest := deltaLoop rs m'
             (rest.1, r.href :: rest.2.1, rest.2.2)
         | none =>
           let rest := deltaLoop rs m'
           (rest.1, r.href :: rest.2.1, rest.2.2))
      | (none, _) =>
        let rest := deltaLoop rs m
        (rest.1, r.href :: rest.2.1, rest.2.2)
    else deltaLoop rs m

/-- Parse loop over the multiget response: non-empty bodies that parse
successfully are appended, everything else is skipped. -/
def parseFetched (ext : ChronoExt) (cal : String) (items : List FetchedItem)
    (acc : List Task) : List Task :=
  items.foldl (fun acc item =>
    match item.content with
    | .ok content =>
      if content.data ≠ [] then
        match from_ics ext content.data content.etag item.href cal with
        | .ok task => acc ++ [task]
        | .error _ => acc
      else acc
    | .error _ => acc) acc

/-- Embedding of `RustyClient::get_tasks` (routing to the local store,
best-effort journal flush, PROPFIND listing, delta against the cache,
multiget of changed items). -/
def get_tasks (client : Option Remote) (ext : ChronoExt)
    (st : EngineState) (calendar_href : String) : TasksOut :=
  if calendar_href = LOCAL_CALENDAR_HREF then
    ⟨.ok st.localStore, st, [.localLoad]⟩
  else
    match client with
    | none => ⟨.error "Offline: Cannot fetch remote calendar", st, []⟩
    | some c =>
      let flushed := sync_journal (some c) ext st
      let st1 := flushed.1
      match c.list_resources calendar_href with
      | .error e =>
        ⟨.error ("PROPFIND Error: " ++ e), st1, flushed.2 ++ [.listRes calendar_href]⟩
      | .ok resources =>
        let cached := st1.cacheTasks calendar_href
        let delta := deltaLoop resources (buildMap cached)
        match delta.2.1 with
        | [] => ⟨.ok delta.1, st1, flushed.2 ++ [.listRes calendar_href]⟩
        | toFetch@(_ :: _) =>
          match c.get_calendar_resources calendar_href toFetch with
          | .error e =>
            ⟨.error ("MULTIGET Error: " ++ e), st1,
              flushed.2 ++ [.listRes calendar_href, .multiget calendar_href toFetch]⟩
          | .ok fetched =>
            ⟨.ok (parseFetched ext calendar_href fetched delta.1), st1,
              flushed.2 ++ [.listRes calendar_href, .multiget calendar_href toFetch]⟩

/-! ### Calendar listing and connection bootstrap -/

/-- Embedding of `RustyClient::get_calendars`.  With no network capability
the source returns `Ok(vec![])` (the local calendar is injected by the
UI), not an error. -/
def get_calendars (client : Option Remote) :
    Except String (List CalendarListEntry) × List RCall :=
  match client with
  | none => (.ok [], [])
  | some c =>
    match c.find_current_user_principal with
    | .error e => (.error e, [.principal])
    | .ok none => (.error "No principal", [.principal])
    | .ok (some principal) =>
      match c.find_calendar_home_set principal with
      | .error e => (.error e, [.principal, .homeSet principal])
      | .ok [] => (.error "No home set", [.principal, .homeSet principal])
      | .ok (home :: _) =>
        match c.find_calendars home with
        | .error e =>
          (.error e, [.principal, .homeSet principal, .findCals home])
        | .ok cols =>
          (.ok (cols.map (fun col =>
            { name := (match c.get_property col.href with
                | .ok v => v
                | .error _ => none).getD col.href
              href := col.href
              color := none })),
           [.principal, .homeSet principal, .findCals home] ++
             cols.map (fun col => .getPropCall col.href))

/-- Embedding of `RustyClient::discover_calendar` (base path as calendar,
else principal → home set → first calendar, else base path). -/
def discover_calendar (client : Option Remote) :
    Except String String × List RCall :=
  match client with
  | none => (.error "Offline", [])
  | some c =>
    let base := c.basePath
    let tr0 := [RCall.listRes base]
    match c.list_resources base with
    | .ok rs =>
      if rs.any (fun r => endsWithS r.href ".ics") then (.ok base, tr0)
      else discoverStep2 c base tr0
    | .error _ => discoverStep2 c base tr0
where
  /-- Principal → home set → first calendar, else the base path. -/
  discoverStep2 (c : Remote) (base : String) (tr0 : List RCall) :
      Except String String × List RCall :=
    match c.find_current_user_principal with
    | .ok (some principal) =>
      (match c.find_calendar_home_set principal with
       | .ok (home :: _) =>
         (match c.find_calendars home with
          | .ok (first :: _) =>
            (.ok first.href,
             tr0 ++ [.principal, .homeSet principal, .findCals home])
          | .ok [] =>
            (.ok base, tr0 ++ [.principal, .homeSet principal, .findCals home])
          | .error _ =>
            (.ok base, tr0 ++ [.principal, .homeSet principal, .findCals home]))
       | .ok [] => (.ok base, tr0 ++ [.principal, .homeSet principal])
       | .error _ => (.ok base, tr0 ++ [.principal, .homeSet principal]))
    | .ok none => (.ok base, tr0 ++ [.principal])
    | .error _ => (.ok base, tr0 ++ [.principal])

/-- Configuration (`config::Config`; load/save plumbing is out of scope). -/
structure Config where
  url : String
  username : String
  password : String
  allow_insecure_certs : Bool
  default_calendar : Option String

/-- Embedding of `RustyClient::connect_with_fallback`.  `oracle` is the
transport built by `Self::new` when the url is nonempty (TLS setup
failures of `new` are not modelled).  Steps: best-effort journal flush;
calendar fetch with cache fallback (fatal only on a certificate error);
active-calendar determination; task fetch when online. -/
def connect_with_fallback (oracle : Remote) (ext : ChronoExt)
    (config : Config) (st : EngineState) : ConnectOut :=
  let client := if config.url = "" then none else some oracle
  let flushed := sync_journal client ext st
  let st1 := flushed.1
  let calsRes := get_calendars client
  match calsRes.1 with
  | .error e =>
    if strContains e "InvalidCertificate" then
      ⟨.error ("Connection failed: " ++ e), st1, flushed.2 ++ calsRes.2⟩
    else
      connectRest client ext
        { st1 with cacheCals := st1.cacheCals }
        st1.cacheCals (some "Offline Mode (Network unreachable)") config
        (flushed.2 ++ calsRes.2)
  | .ok cals =>
    connectRest client ext { st1 with cacheCals := cals } cals none config
      (flushed.2 ++ calsRes.2)
where
  /-- Active-calendar determination and the online task fetch. -/
  connectRest (client : Option Remote) (ext : ChronoExt) (st2 : EngineState)
      (calendars : List CalendarListEntry) (warning : Option String)
      (config : Config) (tr : List RCall) : ConnectOut :=
    let active0 := match config.default_calendar with
      | some defCal =>
        (calendars.find? (fun c => c.name == defCal || c.href == defCal)).map
          (fun c => c.href)
      | none => none
    let discovered := if active0.isNone ∧ warning.isNone
      then some (discover_calendar client) else none
    let active := match discovered with
      | some d => (match d.1 with | .ok href => some href | .error _ => active0)
      | none => active0
    let tr1 := tr ++ (match discovered with | some d => d.2 | none => [])
    if warning.isNone then
      match active with
      | some h =>
        let o := get_tasks client ext st2 h
        ⟨.ok (client, calendars, (match o.res with | .ok ts => ts | .error _ => []),
          active, warning), o.st, tr1 ++ o.trace⟩
      | none => ⟨.ok (client, calendars, [], active, warning), st2, tr1⟩
    else ⟨.ok (client, calendars, [], active, warning), st2, tr1⟩

/-! ### Shared helper lemmas -/

/-- Flush a `List.any` over a uid test into a membership statement. -/
theorem any_uid_eq_false {l : List Task} {t : Task}
    (h : ∀ u ∈ l, u.uid ≠ t.uid) :
    l.any (fun u => u.uid == t.uid) = false := by
  induction l with
  | nil => rfl
  | cons u rest ih =>
    have h1 : u.uid ≠ t.uid := h u (List.mem_cons_self u rest)
    have h2 : ∀ v ∈ rest, v.uid ≠ t.uid := fun v hv => h v (List.mem_cons_of_mem u hv)
    simp [List.any_cons, ih h2, h1]

/-- Journal flushing never touches the local store, the calendar-list
cache, or the per-calendar task cache. -/
theorem sync_journal_fields (client : Option Remote) (ext : ChronoExt)
    (st : EngineState) :
    (sync_journal client ext st).1.localStore = st.localStore ∧
    (sync_journal client ext st).1.cacheCals = st.cacheCals ∧
    (sync_journal client ext st).1.cacheTasks = st.cacheTasks := by
  cases hj : st.journal <;> cases client <;> simp [sync_journal, hj]

/-! ### Shared concrete fixtures for witnesses and counterexamples -/

/-- External bundle with inert date functions (used where no date fields
are exercised). -/
def ext0 : ChronoExt :=
  { now := 0, fmt := fun _ => "", parse16 := fun _ => none,
    parse8 := fun _ => none, parseLocal := fun _ => none }

/-- Empty storage state. -/
def emptyState : EngineState :=
  { localStore := [], journal := [], cacheCals := [], cacheTasks := fun _ => [] }

/-- A minimal concrete remote-calendar task. -/
def task0 : Task :=
  { uid := "u0", summary := "s", description := "", status := .NeedsAction,
    priority := 0, due := none, dtstart := none, estimated_duration := none,
    rrule := none, parent_uid := none, dependencies := [], categories := [],
    calendar_href := "https://cal/x/", href := "https://cal/x/u0.ics",
    etag := "e1", depth := 0 }

/-- A remote whose every operation fails with a plain network error. -/
def failRemote : Remote :=
  { basePath := "/"
    list_resources := fun _ => .error "NetworkError"
    get_calendar_resources := fun _ _ => .error "NetworkError"
    create_resource := fun _ _ => .error "NetworkError"
    update_resource := fun _ _ _ => .error "NetworkError"
    delete := fun _ _ => .error "NetworkError"
    find_current_user_principal := .error "NetworkError"
    find_calendar_home_set := fun _ => .error "NetworkError"
    find_calendars := fun _ => .error "NetworkError"
    get_property := fun _ => .error "NetworkError" }

/-- A remote whose every operation succeeds (with trivial payloads). -/
def okRemote : Remote :=
  { basePath := "/"
    list_resources := fun _ => .ok []
    get_calendar_resources := fun _ _ => .ok []
    create_resource := fun _ _ => .ok (some "e2")
    update_resource := fun _ _ _ => .ok (some "e2")
    delete := fun _ _ => .ok ()
    find_current_user_principal := .ok (some "/p/")
    find_calendar_home_set := fun _ => .ok ["/h/"]
    find_calendars := fun _ => .ok []
    get_property := fun _ => .ok none }

/-! ### Claim C1 — write failures are journaled and reported as success -/

/-- Claim C1: for a task on a non-sentinel calendar, when a network
capability exists and the remote create/update/delete attempt fails, the
operation appends the corresponding `Action` (carrying the full task
snapshot) to the Journal and returns success instead of surfacing the
error. -/
theorem c1_offline_write_fallback (c : Remote) (ext : ChronoExt)
    (st : EngineState) (t : Task) (e : String)
    (hne : t.calendar_href ≠ LOCAL_CALENDAR_HREF) :
    (c.create_resource (fullHref t) (to_ics ext { t with href := fullHref t }) =
        .error e →
      (create_task (some c) ext st t).res = .ok () ∧
      (create_task (some c) ext st t).st.journal =
        st.journal ++ [.Create { t with href := fullHref t }]) ∧
    (c.update_resource t.href (to_ics ext t) t.etag = .error e →
      (update_task (some c) ext st t).res = .ok () ∧
      (update_task (some c) ext st t).st.journal =
        st.journal ++ [.Update t]) ∧
    (c.delete t.href t.etag = .error e →
      (delete_task (some c) ext st t).res = .ok () ∧
      (delete_task (some c) ext st t).st.journal =
        st.journal ++ [.Delete t]) := by
  refine ⟨fun hc => ?_, fun hu => ?_, fun hd => ?_⟩
  · simp [create_task, hne, hc]
  · simp [update_task, hne, hu]
  · simp [delete_task, hne, hd]

/-- Witness for C1 at a concrete failing remote. -/
theorem c1_offline_write_fallback_witness :
    (create_task (some failRemote) ext0 emptyState task0).res = .ok () ∧
    (create_task (some failRemote) ext0 emptyState task0).st.journal =
      [.Create { task0 with href := fullHref task0 }] ∧
    (update_task (some failRemote) ext0 emptyState task0).res = .ok () ∧
    (update_task (some failRemote) ext0 emptyState task0).st.journal =
      [.Update task0] ∧
    (delete_task (some failRemote) ext0 emptyState task0).res = .ok () ∧
    (delete_task (some failRemote) ext0 emptyState task0).st.journal =
      [.Delete task0] := by
  have h := c1_offline_write_fallback failRemote ext0 emptyState task0
    "NetworkError" (by decide)
  refine ⟨(h.1 rfl).1, by simpa using (h.1 rfl).2, (h.2.1 rfl).1,
    by simpa using (h.2.1 rfl).2, (h.2.2 rfl).1, by simpa using (h.2.2 rfl).2⟩

/-! ### Claim C9 — explicit offline client -/

/-- Counterexample for C9 as stated: the offline client's `get_calendars`
does not fail with an "Offline" error; it returns an empty success list
(`Ok(vec![])` in the source). -/
theorem c9_offline_counterexample :
    (get_calendars none).1 = .ok ([] : List CalendarListEntry) := rfl

/-- Claim C9 (amended): for the explicit offline client, `get_tasks` on a
non-sentinel calendar and `create_task`/`update_task`/`delete_task` on a
non-sentinel task all fail with an "Offline" error, while `get_calendars`
returns an empty success list (and `discover_calendar` fails with
"Offline"). -/
theorem c9_offline_operations (ext : ChronoExt) (st : EngineState)
    (cal : String) (t : Task) :
    (cal ≠ LOCAL_CALENDAR_HREF →
      (get_tasks none ext st cal).res = .error "Offline: Cannot fetch remote calendar") ∧
    (t.calendar_href ≠ LOCAL_CALENDAR_HREF →
      (create_task none ext st t).res = .error "Offline" ∧
      (update_task none ext st t).res = .error "Offline" ∧
      (delete_task none ext st t).res = .error "Offline") ∧
    (get_calendars none).1 = .ok [] ∧
    (discover_calendar none).1 = .error "Offline" := by
  refine ⟨fun h => ?_, fun h => ⟨?_, ?_, ?_⟩, rfl, rfl⟩
  · simp [get_tasks, h]
  · simp [create_task, h]
  · simp [update_task, h]
  · simp [delete_task, h]

/-- Witness for the amended C9 at concrete inputs. -/
theorem c9_offline_operations_witness :
    (get_tasks none ext0 emptyState "https://cal/x/").res =
      .error "Offline: Cannot fetch remote calendar" ∧
    (create_task none ext0 emptyState task0).res = .error "Offline" ∧
    (update_task none ext0 emptyState task0).res = .error "Offline" ∧
    (delete_task none ext0 emptyState task0).res = .error "Offline" := by
  have h := c9_offline_operations ext0 emptyState "https://cal/x/" task0
  exact ⟨h.1 (by decide), (h.2.1 (by decide)).1, (h.2.1 (by decide)).2.1,
    (h.2.1 (by decide)).2.2⟩

/-! ### Claim C10 — local update of a missing uid is a silent no-op -/

/-- Claim C10: for a task on the local sentinel calendar whose uid is not
in the Local Store, `update_task` returns success, leaves the whole state
unchanged, and performs no save (the only storage access is the load). -/
theorem c10_local_update_missing_noop (client : Option Remote)
    (ext : ChronoExt) (st : EngineState) (t : Task)
    (hloc : t.calendar_href = LOCAL_CALENDAR_HREF)
    (hmiss : ∀ u ∈ st.localStore, u.uid ≠ t.uid) :
    (update_task client ext st t).res = .ok () ∧
    (update_task client ext st t).st = st ∧
    (update_task client ext st t).trace = [.localLoad] := by
  have hany := any_uid_eq_false hmiss
  simp [update_task, hloc, hany]

/-- Witness for C10 at a concrete state containing an unrelated task. -/
theorem c10_local_update_missing_noop_witness :
    (update_task none ext0
      { emptyState with localStore := [task0] }
      { task0 with uid := "other", calendar_href := LOCAL_CALENDAR_HREF }).res =
        .ok () ∧
    (update_task none ext0
      { emptyState with localStore := [task0] }
      { task0 with uid := "other", calendar_href := LOCAL_CALENDAR_HREF }).st =
        { emptyState with localStore := [task0] } ∧
    (update_task none ext0
      { emptyState with localStore := [task0] }
      { task0 with uid := "other", calendar_href := LOCAL_CALENDAR_HREF }).trace =
        [.localLoad] :=
  c10_local_update_missing_noop none ext0
    { emptyState with localStore := [task0] }
    { task0 with uid := "other", calendar_href := LOCAL_CALENDAR_HREF }
    rfl (by decide)

/-! ### Claim C8 — bootstrap: certificate errors are fatal, others fall
back to the cached calendar list -/

/-- Claim C8: during connection bootstrap, a calendar-list fetch failure
containing "InvalidCertificate" aborts with a fatal error (no cache
fallback); any other fetch failure falls back to the cached calendar list,
marks the session offline with a warning, and still returns success. -/
theorem c8_bootstrap_fallback (oracle : Remote) (ext : ChronoExt)
    (cfg : Config) (st : EngineState) (e : String)
    (hurl : cfg.url ≠ "")
    (hcal : (get_calendars (some oracle)).1 = .error e) :
    (strContains e "InvalidCertificate" = true →
      (connect_with_fallback oracle ext cfg st).res =
        .error ("Connection failed: " ++ e)) ∧
    (strContains e "InvalidCertificate" = false →
      (connect_with_fallback oracle ext cfg st).res =
        .ok (some oracle, st.cacheCals, [],
          (match cfg.default_calendar with
           | some defCal =>
             (st.cacheCals.find? (fun c => c.name == defCal || c.href == defCal)).map
               (fun c => c.href)
           | none => none),
          some "Offline Mode (Network unreachable)") ∧
      (connect_with_fallback oracle ext cfg st).st.cacheCals = st.cacheCals) := by
  have hcc := (sync_journal_fields (some oracle) ext st).2.1
  constructor
  · intro hcert
    simp [connect_with_fallback, hurl, hcal, hcert]
  · intro hcert
    simp [connect_with_fallback, connect_with_fallback.connectRest, hurl, hcal,
      hcert, hcc]

/-- A remote failing principal discovery with a certificate error. -/
def certFailRemote : Remote :=
  { failRemote with
    find_current_user_principal := .error "InvalidCertificate(Expired)" }

/-- A concrete nonempty-url configuration with no default calendar. -/
def cfg0 : Config :=
  { url := "https://cal.example", username := "u", password := "p",
    allow_insecure_certs := false, default_calendar := none }

/-- Witness for C8: a certificate failure aborts; a plain network failure
falls back with the offline warning. -/
theorem c8_bootstrap_fallback_witness :
    (connect_with_fallback certFailRemote ext0 cfg0 emptyState).res =
      .error "Connection failed: InvalidCertificate(Expired)" ∧
    (connect_with_fallback failRemote ext0 cfg0 emptyState).res =
      .ok (some failRemote, [], [], none,
        some "Offline Mode (Network unreachable)") := by
  have h1 := c8_bootstrap_fallback certFailRemote ext0 cfg0 emptyState
    "InvalidCertificate(Expired)" (by decide) rfl
  have h2 := c8_bootstrap_fallback failRemote ext0 cfg0 emptyState
    "NetworkError" (by decide) rfl
  exact ⟨h1.1 (by decide), ((h2.2 (by decide)).1)⟩

/-! ### Claim C2 — replay is FIFO from the head with halt-on-block -/

/-- Replay splits the queue into a resolved prefix (popped in order) and
the untouched remainder, whose head (if any) blocked. -/
theorem syncJournalGo_split (c : Remote) (ext : ChronoExt) :
    ∀ q : List Action, ∃ done rest, q = done ++ rest ∧
      (syncJournalGo c ext q).1 = rest ∧
      (∀ a ∈ done, (processAction c ext a).1 = true) ∧
      (rest = [] ∨ ∃ b rest2, rest = b :: rest2 ∧
        (processAction c ext b).1 = false) := by
  intro q
  induction q with
  | nil => exact ⟨[], [], rfl, rfl, by simp, Or.inl rfl⟩
  | cons a rest ih =>
    cases hp : (processAction c ext a).1 with
    | true =>
      obtain ⟨d, r, hq, hres, hall, hlast⟩ := ih
      refine ⟨a :: d, r, by rw [hq]; rfl, ?_, ?_, hlast⟩
      · simp [syncJournalGo, hp, hres]
      · intro x hx
        rcases List.mem_cons.mp hx with h | h
        · simpa [h] using hp
        · exact hall x h
    | false =>
      exact ⟨[], a :: rest, rfl, by simp [syncJournalGo, hp], by simp,
        Or.inr ⟨a, rest, rfl, hp⟩⟩

/-- Claim C2: journal replay is strictly FIFO from the head.  For every
queue, replay pops a resolved prefix in order and stops at the first
blocked entry, leaving it and everything after it untouched; in
particular, for `[A, B]` with `A` blocked the queue stays `[A, B]`, and a
replay in which `A` resolves processes `A` (calls traced first) before
turning to `B`. -/
theorem c2_replay_fifo :
    (∀ (c : Remote) (ext : ChronoExt) (st : EngineState), ∃ done rest,
      st.journal = done ++ rest ∧
      (sync_journal (some c) ext st).1.journal = rest ∧
      (∀ a ∈ done, (processAction c ext a).1 = true) ∧
      (rest = [] ∨ ∃ b rest2, rest = b :: rest2 ∧
        (processAction c ext b).1 = false)) ∧
    (∀ (c : Remote) (ext : ChronoExt) (A B : Action),
      (processAction c ext A).1 = false →
      (syncJournalGo c ext [A, B]).1 = [A, B]) ∧
    (∀ (c : Remote) (ext : ChronoExt) (A B : Action),
      (processAction c ext A).1 = true →
      (syncJournalGo c ext [A, B]).1 = (syncJournalGo c ext [B]).1 ∧
      (syncJournalGo c ext [A, B]).2 =
        (processAction c ext A).2 ++ (syncJournalGo c ext [B]).2) := by
  refine ⟨fun c ext st => ?_,
    fun c ext A B h => by simp [syncJournalGo, h],
    fun c ext A B h => ⟨by simp [syncJournalGo, h], by simp [syncJournalGo, h]⟩⟩
  cases hj : st.journal with
  | nil => exact ⟨[], [], rfl, by simp [sync_journal, hj], by simp, Or.inl rfl⟩
  | cons a rest =>
    obtain ⟨d, r, hq, hres, hall, hlast⟩ := syncJournalGo_split c ext (a :: rest)
    have hs : (sync_journal (some c) ext st).1.journal =
        (syncJournalGo c ext (a :: rest)).1 := by
      simp [sync_journal, hj]
    exact ⟨d, r, hq, hs.trans hres, hall, hlast⟩

/-- Witness for C2: with an all-failing remote the queue `[A, B]` is left
intact; with an all-succeeding remote `A` is popped before `B` is
processed. -/
theorem c2_replay_fifo_witness :
    (∃ done rest,
      ({ emptyState with
          journal := [.Create task0, .Delete task0] } : EngineState).journal =
        done ++ rest ∧
      (sync_journal (some failRemote) ext0
        { emptyState with journal := [.Create task0, .Delete task0] }).1.journal =
        rest ∧
      (∀ a ∈ done, (processAction failRemote ext0 a).1 = true) ∧
      (rest = [] ∨ ∃ b rest2, rest = b :: rest2 ∧
        (processAction failRemote ext0 b).1 = false)) ∧
    (syncJournalGo failRemote ext0 [.Create task0, .Delete task0]).1 =
      [.Create task0, .Delete task0] ∧
    (syncJournalGo okRemote ext0 [.Create task0, .Delete task0]).1 =
      (syncJournalGo okRemote ext0 [.Delete task0]).1 ∧
    (syncJournalGo okRemote ext0 [.Create task0, .Delete task0]).2 =
      (processAction okRemote ext0 (.Create task0)).2 ++
        (syncJournalGo okRemote ext0 [.Delete task0]).2 := by
  refine ⟨c2_replay_fifo.1 failRemote ext0 _, ?_, ?_, ?_⟩
  · exact c2_replay_fifo.2.1 failRemote ext0 (.Create task0) (.Delete task0)
      (by decide)
  · exact (c2_replay_fifo.2.2 okRemote ext0 (.Create task0) (.Delete task0)
      (by decide)).1
  · exact (c2_replay_fifo.2.2 okRemote ext0 (.Create task0) (.Delete task0)
      (by decide)).2

/-! ### Claim C3 — Update conflict handling during replay -/

/-- Claim C3: for an Update at the journal head whose remote attempt fails
with PreconditionFailed, replay refetches the resource (one multiget),
retries the update exactly once with the freshly observed etag, and pops
the entry regardless of the retry's outcome; a NotFound failure pops
without any retry. -/
theorem c3_update_conflict :
    (∀ (c : Remote) (ext : ChronoExt) (st : EngineState) (u : Task)
        (rest : List Action) (e : String) (item : FetchedItem)
        (its : List FetchedItem) (content : Content),
      st.journal = .Update u :: rest →
      c.update_resource u.href (to_ics ext u) u.etag = .error e →
      (strContains e "412" || strContains e "PreconditionFailed") = true →
      c.get_calendar_resources u.calendar_href [u.href] = .ok (item :: its) →
      item.content = .ok content →
      processAction c ext (.Update u) =
        (true, [.updateRes u.href (to_ics ext u) u.etag,
          .multiget u.calendar_href [u.href],
          .updateRes u.href (to_ics ext u) content.etag]) ∧
      (sync_journal (some c) ext st).1.journal = (syncJournalGo c ext rest).1) ∧
    (∀ (c : Remote) (ext : ChronoExt) (st : EngineState) (u : Task)
        (rest : List Action) (e : String),
      st.journal = .Update u :: rest →
      c.update_resource u.href (to_ics ext u) u.etag = .error e →
      (strContains e "412" || strContains e "PreconditionFailed") = false →
      strContains e "404" = true →
      processAction c ext (.Update u) =
        (true, [.updateRes u.href (to_ics ext u) u.etag]) ∧
      (sync_journal (some c) ext st).1.journal = (syncJournalGo c ext rest).1) := by
  constructor
  · intro c ext st u rest e item its content hj hupd h412 hfetch hcontent
    have hpa : processAction c ext (.Update u) =
        (true, [.updateRes u.href (to_ics ext u) u.etag,
          .multiget u.calendar_href [u.href],
          .updateRes u.href (to_ics ext u) content.etag]) := by
      simp [processAction, hupd, h412, hfetch, hcontent]
    refine ⟨hpa, ?_⟩
    have hgo : (syncJournalGo c ext (.Update u :: rest)).1 =
        (syncJournalGo c ext rest).1 := by
      simp [syncJournalGo, hpa]
    simpa [sync_journal, hj] using hgo
  · intro c ext st u rest e hj hupd h412 h404
    have hpa : processAction c ext (.Update u) =
        (true, [.updateRes u.href (to_ics ext u) u.etag]) := by
      simp [processAction, hupd, h412, h404]
    refine ⟨hpa, ?_⟩
    have hgo : (syncJournalGo c ext (.Update u :: rest)).1 =
        (syncJournalGo c ext rest).1 := by
      simp [syncJournalGo, hpa]
    simpa [sync_journal, hj] using hgo

/-- A remote answering the stale-etag update with PreconditionFailed and
the refetch with a fresh etag "e2". -/
def conflictRemote : Remote :=
  { failRemote with
    update_resource := fun _ _ etag =>
      if etag = "e1" then .error "PreconditionFailed" else .ok (some "e3")
    get_calendar_resources := fun _ _ =>
      .ok [{ href := "https://cal/x/u0.ics",
             content := .ok { data := ["X"], etag := "e2" } }] }

/-- A remote answering updates with a 404. -/
def notFoundRemote : Remote :=
  { failRemote with update_resource := fun _ _ _ => .error "404 Not Found" }

/-- Witness for C3: concrete conflict (refetch observes "e2", one retry,
entry popped) and concrete not-found (no retry, entry popped). -/
theorem c3_update_conflict_witness :
    (processAction conflictRemote ext0 (.Update task0) =
      (true, [.updateRes task0.href (to_ics ext0 task0) task0.etag,
        .multiget task0.calendar_href [task0.href],
        .updateRes task0.href (to_ics ext0 task0) "e2"]) ∧
     (sync_journal (some conflictRemote) ext0
       { emptyState with journal := [.Update task0] }).1.journal =
       (syncJournalGo conflictRemote ext0 []).1) ∧
    (processAction notFoundRemote ext0 (.Update task0) =
      (true, [.updateRes task0.href (to_ics ext0 task0) task0.etag]) ∧
     (sync_journal (some notFoundRemote) ext0
       { emptyState with journal := [.Update task0] }).1.journal =
       (syncJournalGo notFoundRemote ext0 []).1) := by
  constructor
  · exact c3_update_conflict.1 conflictRemote ext0
      { emptyState with journal := [.Update task0] } task0 [] "PreconditionFailed"
      { href := "https://cal/x/u0.ics",
        content := .ok { data := ["X"], etag := "e2" } } []
      { data := ["X"], etag := "e2" } rfl (by decide) (by decide) rfl rfl
  · exact c3_update_conflict.2 notFoundRemote ext0
      { emptyState with journal := [.Update task0] } task0 [] "404 Not Found"
      rfl rfl (by decide) (by decide)

/-! ### Claim C6 — recurrence respawn arithmetic -/

/-- Claim C6: completing a recurring task with `dtstart = T`,
`due = T + 2 days` under a daily rule yields a respawned task with
`dtstart = T + 1 day`, `due = T + 3 days`, status NeedsAction, the fresh
uid (distinct from the original), empty href/etag and no dependencies;
and in general the respawned due preserves the original `due − anchor`
offset applied to the next occurrence. -/
theorem c6_respawn_arithmetic :
    (∀ (client : Option Remote) (expand : String → Int → Option (List Int))
        (freshUid : String) (ext : ChronoExt) (st : EngineState) (t : Task)
        (T : Int) (rule : String),
      t.calendar_href = LOCAL_CALENDAR_HREF →
      t.status ≠ .Completed →
      t.rrule = some rule →
      t.dtstart = some T →
      t.due = some (T + 2 * 86400) →
      expand rule T = some [T, T + 86400] →
      freshUid ≠ t.uid →
      ∃ next,
        (toggle_task client expand freshUid ext st t).res =
          .ok ({ t with status := .Completed }, some next) ∧
        next.dtstart = some (T + 86400) ∧
        next.due = some (T + 3 * 86400) ∧
        next.status = .NeedsAction ∧
        next.uid = freshUid ∧ next.uid ≠ t.uid ∧
        next.href = "" ∧ next.etag = "" ∧ next.dependencies = []) ∧
    (∀ (expand : String → Int → Option (List Int)) (freshUid : String)
        (t : Task) (rule : String) (seed : Int) (d0 nxt : Int)
        (ds : List Int) (od : Int),
      t.rrule = some rule →
      (t.dtstart = some seed ∨ (t.dtstart = none ∧ t.due = some seed)) →
      expand rule seed = some (d0 :: nxt :: ds) →
      t.due = some od →
      ∃ nt, respawn expand freshUid t = some nt ∧
        nt.due = some (nxt + (od - seed))) := by
  constructor
  · intro client expand freshUid ext st t T rule hloc hst hrule hdt hdue hexp hfresh
    have hflip : (if t.status = TaskStatus.Completed then TaskStatus.NeedsAction
        else TaskStatus.Completed) = TaskStatus.Completed := if_neg hst
    refine ⟨{ t with
        uid := freshUid, href := "", etag := "", status := .NeedsAction,
        dependencies := [], dtstart := some (T + 86400),
        due := some ((T + 86400) + ((T + 2 * 86400) - T)) },
      ?_, rfl, ?_, rfl, rfl, hfresh, rfl, rfl, rfl⟩
    · simp [toggle_task, hflip, respawn, hrule, hdt, hdue, hexp, hloc]
    · show some ((T + 86400) + ((T + 2 * 86400) - T)) = some (T + 3 * 86400)
      congr 1
      ring
  · intro expand freshUid t rule seed d0 nxt ds od hrule hanchor hexp hdue
    have hlen : 1 < (d0 :: nxt :: ds).length := by
      simp only [List.length_cons]
      omega
    rcases hanchor with hdt | ⟨hdt, hseed⟩
    · refine ⟨{ t with
        uid := freshUid, href := "", etag := "", status := .NeedsAction,
        dependencies := [], dtstart := some nxt,
        due := some (nxt + (od - seed)) }, ?_, rfl⟩
      simp [respawn, hrule, hdt, hexp, hdue, hlen]
    · refine ⟨{ t with
        uid := freshUid, href := "", etag := "", status := .NeedsAction,
        dependencies := [], dtstart := none,
        due := some (nxt + (od - seed)) }, ?_, rfl⟩
      have hod : od = seed := by
        rw [hdue] at hseed
        exact Option.some_inj.mp hseed
      simp [respawn, hrule, hdt, hseed, hexp, hdue, hlen, hod]

/-- Daily expander used by the C6 witness (next occurrence one day after
the anchor). -/
def dailyExpand : String → Int → Option (List Int) :=
  fun _ s => some [s, s + 86400]

/-- A concrete local recurring task anchored at 0 with due two days out. -/
def taskDaily : Task :=
  { task0 with
    calendar_href := LOCAL_CALENDAR_HREF
    uid := "orig"
    rrule := some "FREQ=DAILY"
    dtstart := some 0
    due := some 172800 }

/-- Witness for C6 at the concrete daily task. -/
theorem c6_respawn_arithmetic_witness :
    ∃ next,
      (toggle_task none dailyExpand "fresh-uid" ext0 emptyState taskDaily).res =
        .ok ({ taskDaily with status := .Completed }, some next) ∧
      next.dtstart = some (0 + 86400) ∧
      next.due = some (0 + 3 * 86400) ∧
      next.status = .NeedsAction ∧
      next.uid = "fresh-uid" ∧ next.uid ≠ taskDaily.uid ∧
      next.href = "" ∧ next.etag = "" ∧ next.dependencies = [] :=
  c6_respawn_arithmetic.1 none dailyExpand "fresh-uid" ext0 emptyState
    taskDaily 0 "FREQ=DAILY" rfl (by decide) rfl rfl (by decide) (by decide)
    (by decide)

/-! ### Delta-sync lemmas shared by C4 and C5 -/

/-- A successful `removeKey` returns an entry of the map, and the residual
map is a sub-collection of the original. -/
theorem removeKey_spec (m : List (String × Task)) (k : String) :
    ∀ v m', removeKey m k = (some v, m') →
      (k, v) ∈ m ∧ ∀ p ∈ m', p ∈ m := by
  induction m with
  | nil => intro v m' h; simp [removeKey] at h
  | cons p rest ih =>
    intro v m' h
    by_cases hk : p.1 = k
    · rw [removeKey, if_pos hk] at h
      obtain ⟨h1, h2⟩ := Prod.mk.injEq .. ▸ h
      refine ⟨?_, ?_⟩
      · have : p = (k, v) := by
          cases p
          simp only [Option.some.injEq] at h1
          simp_all
        exact this ▸ List.mem_cons_self p rest
      · intro q hq
        rw [← h2] at hq
        exact List.mem_cons_of_mem p hq
    · rw [removeKey, if_neg hk] at h
      obtain ⟨h1, h2⟩ := Prod.mk.injEq .. ▸ h
      have hrk : removeKey rest k = (some v, (removeKey rest k).2) := by
        rw [← h1]
      obtain ⟨hmem, hsub⟩ := ih v (removeKey rest k).2 hrk
      refine ⟨List.mem_cons_of_mem p hmem, ?_⟩
      intro q hq
      rw [← h2] at hq
      rcases List.mem_cons.mp hq with h | h
      · exact h ▸ List.mem_cons_self p rest
      · exact List.mem_cons_of_mem p (hsub q h)

/-- Entries produced by `insertMap` are old entries or the inserted one. -/
theorem insertMap_mem (m : List (String × Task)) (k : String) (v : Task) :
    ∀ p ∈ insertMap m k v, p ∈ m ∨ p = (k, v) := by
  induction m with
  | nil => intro p hp; simp [insertMap] at hp; simp [hp]
  | cons q rest ih =>
    intro p hp
    by_cases hk : q.1 = k
    · rw [insertMap, if_pos hk] at hp
      rcases List.mem_cons.mp hp with h | h
      · exact Or.inr h
      · exact Or.inl (List.mem_cons_of_mem q h)
    · rw [insertMap, if_neg hk] at hp
      rcases List.mem_cons.mp hp with h | h
      · exact Or.inl (h ▸ List.mem_cons_self q rest)
      · rcases ih p h with h' | h'
        · exact Or.inl (List.mem_cons_of_mem q h')
        · exact Or.inr h'

/-- Every entry of the cache map keys a task by its own href. -/
theorem buildMap_key_href (ts : List Task) :
    ∀ p ∈ buildMap ts, p.1 = p.2.href := by
  have hgen : ∀ (l : List Task) (acc : List (String × Task)),
      (∀ p ∈ acc, p.1 = p.2.href) →
      ∀ p ∈ l.foldl (fun m t => insertMap m t.href t) acc, p.1 = p.2.href := by
    intro l
    induction l with
    | nil => intro acc hacc p hp; exact hacc p hp
    | cons t rest ih =>
      intro acc hacc p hp
      refine ih (insertMap acc t.href t) ?_ p hp
      intro q hq
      rcases insertMap_mem acc t.href t q hq with h | h
      · exact hacc q h
      · rw [h]

  intro p hp
  exact hgen ts [] (by simp) p hp

/-- Hrefs delivered by the delta loop (both the kept cached tasks and the
hrefs marked for fetch) all come from the remote listing. -/
theorem deltaLoop_href_sub (rs : List Resource) :
    ∀ m, (∀ p ∈ m, p.1 = p.2.href) →
      (∀ x ∈ (deltaLoop rs m).1, ∃ r ∈ rs, x.href = r.href) ∧
      (∀ h ∈ (deltaLoop rs m).2.1, ∃ r ∈ rs, h = r.href) := by
  induction rs with
  | nil => intro m hm; simp [deltaLoop]
  | cons r rs ih =>
    intro m hm
    by_cases hics : endsWithS r.href ".ics" = true
    · rcases hrm : removeKey m r.href with ⟨o, m2⟩
      cases o with
      | some lt =>
        obtain ⟨hmem, hsub⟩ := removeKey_spec m r.href lt m2 hrm
        have hm2 : ∀ p ∈ m2, p.1 = p.2.href := fun p hp => hm p (hsub p hp)
        have hlth : lt.href = r.href := (hm _ hmem).symm
        obtain ⟨ihf, iht⟩ := ih m2 hm2
        cases hetag : r.etag with
        | some re =>
          by_cases hcond : re ≠ "" ∧ re = lt.etag
          · constructor
            · intro x hx
              simp only [deltaLoop, hics, hrm, hetag, if_pos hcond,
                if_true] at hx
              rcases List.mem_cons.mp hx with h | h
              · exact ⟨r, List.mem_cons_self r rs, h ▸ hlth⟩
              · obtain ⟨r', hr', hx'⟩ := ihf x h
                exact ⟨r', List.mem_cons_of_mem r hr', hx'⟩
            · intro h hh
              simp only [deltaLoop, hics, hrm, hetag, if_pos hcond,
                if_true] at hh
              obtain ⟨r', hr', hh'⟩ := iht h hh
              exact ⟨r', List.mem_cons_of_mem r hr', hh'⟩
          · constructor
            · intro x hx
              simp only [deltaLoop, hics, hrm, hetag, if_neg hcond,
                if_true] at hx
              obtain ⟨r', hr', hx'⟩ := ihf x hx
              exact ⟨r', List.mem_cons_of_mem r hr', hx'⟩
            · intro h hh
              simp only [deltaLoop, hics, hrm, hetag, if_neg hcond,
                if_true] at hh
              rcases List.mem_cons.mp hh with h' | h'
              · exact ⟨r, List.mem_cons_self r rs, h'⟩
              · obtain ⟨r', hr', hh'⟩ := iht h h'
                exact ⟨r', List.mem_cons_of_mem r hr', hh'⟩
        | none =>
          constructor
          · intro x hx
            simp only [deltaLoop, hics, hrm, hetag, if_true] at hx
            obtain ⟨r', hr', hx'⟩ := ihf x hx
            exact ⟨r', List.mem_cons_of_mem r hr', hx'⟩
          · intro h hh
            simp only [deltaLoop, hics, hrm, hetag, if_true] at hh
            rcases List.mem_cons.mp hh with h' | h'
            · exact ⟨r, List.mem_cons_self r rs, h'⟩
            · obtain ⟨r', hr', hh'⟩ := iht h h'
              exact ⟨r', List.mem_cons_of_mem r hr', hh'⟩
      | none =>
        obtain ⟨ihf, iht⟩ := ih m hm
        constructor
        · intro x hx
          simp only [deltaLoop, hics, hrm, if_true] at hx
          obtain ⟨r', hr', hx'⟩ := ihf x hx
          exact ⟨r', List.mem_cons_of_mem r hr', hx'⟩
        · intro h hh
          simp only [deltaLoop, hics, hrm, if_true] at hh
          rcases List.mem_cons.mp hh with h' | h'
          · exact ⟨r, List.mem_cons_self r rs, h'⟩
          · obtain ⟨r', hr', hh'⟩ := iht h h'
            exact ⟨r', List.mem_cons_of_mem r hr', hh'⟩
    · obtain ⟨ihf, iht⟩ := ih m hm
      constructor
      · intro x hx
        simp only [deltaLoop, hics, if_false] at hx
        obtain ⟨r', hr', hx'⟩ := ihf x hx
        exact ⟨r', List.mem_cons_of_mem r hr', hx'⟩
      · intro h hh
        simp only [deltaLoop, hics, if_false] at hh
        obtain ⟨r', hr', hh'⟩ := iht h hh
        exact ⟨r', List.mem_cons_of_mem r hr', hh'⟩

/-- A successfully parsed task carries the href it was fetched under. -/
theorem from_ics_href (ext : ChronoExt) (doc : List String)
    (etag href cal : String) (task : Task)
    (h : from_ics ext doc etag href cal = .ok task) : task.href = href := by
  by_cases hv : hasVTodo doc = true
  · rw [from_ics, if_pos hv] at h
    cases h
    rfl
  · rw [from_ics, if_neg hv] at h
    cases h

/-- Members of the multiget parse loop either come from the accumulator or
were parsed out of some response item (with that item's href). -/
theorem parseFetched_mem (ext : ChronoExt) (cal : String)
    (items : List FetchedItem) :
    ∀ acc x, x ∈ parseFetched ext cal items acc →
      x ∈ acc ∨ ∃ it ∈ items, x.href = it.href := by
  induction items with
  | nil => intro acc x hx; exact Or.inl hx
  | cons it rest ih =>
    intro acc x hx
    rw [parseFetched, List.foldl_cons] at hx
    have hx' := ih _ x (by rw [parseFetched]; exact hx)
    have hstep : ∀ y, y ∈ (match it.content with
        | .ok content =>
          if content.data ≠ [] then
            match from_ics ext content.data content.etag it.href cal with
            | .ok task => acc ++ [task]
            | .error _ => acc
          else acc
        | .error _ => acc) → y ∈ acc ∨ y.href = it.href := by
      intro y hy
      cases hc : it.content with
      | error e =>
        rw [hc] at hy
        simp only [] at hy
        exact Or.inl hy
      | ok content =>
        rw [hc] at hy
        simp only [] at hy
        by_cases hd : content.data ≠ []
        · rw [if_pos hd] at hy
          cases hp : from_ics ext content.data content.etag it.href cal with
          | ok task =>
            rw [hp] at hy
            simp only [] at hy
            rcases List.mem_append.mp hy with h | h
            · exact Or.inl h
            · have : y = task := by simpa using h
              exact Or.inr (this ▸ from_ics_href _ _ _ _ _ _ hp)
          | error e =>
            rw [hp] at hy
            simp only [] at hy
            exact Or.inl hy
        · rw [if_neg hd] at hy
          exact Or.inl hy
    rcases hx' with h | h
    · rcases hstep x h with h' | h'
      · exact Or.inl h'
      · exact Or.inr ⟨it, List.mem_cons_self it rest, h'⟩
    · obtain ⟨it', hit', h'⟩ := h
      exact Or.inr ⟨it', List.mem_cons_of_mem it hit', h'⟩

/-! ### Claim C5 — deletion propagation -/

/-- Claim C5: for a remote calendar, a cached task whose href does not
appear in the remote listing is absent from the `get_tasks` result
(silently dropped; the hrefs of every returned task come from the
listing).  The multiget hypothesis is the Remote Collection contract that
response items answer the requested hrefs. -/
theorem c5_deletion_propagation (c : Remote) (ext : ChronoExt)
    (st : EngineState) (cal : String) (rs : List Resource) (t : Task)
    (l : List Task)
    (hne : cal ≠ LOCAL_CALENDAR_HREF)
    (hlist : c.list_resources cal = .ok rs)
    (hserver : ∀ hs items, c.get_calendar_resources cal hs = .ok items →
      ∀ it ∈ items, it.href ∈ hs)
    (hcached : t ∈ st.cacheTasks cal)
    (hgone : ∀ r ∈ rs, r.href ≠ t.href)
    (hres : (get_tasks (some c) ext st cal).res = .ok l) :
    t ∉ l := by
  have hct : (sync_journal (some c) ext st).1.cacheTasks = st.cacheTasks :=
    (sync_journal_fields (some c) ext st).2.2
  have hkeys := buildMap_key_href (st.cacheTasks cal)
  obtain ⟨hfin, htf⟩ := deltaLoop_href_sub rs (buildMap (st.cacheTasks cal)) hkeys
  simp only [get_tasks, hne, if_false, hlist, hct] at hres
  rcases hd : (deltaLoop rs (buildMap (st.cacheTasks cal))).2.1 with _ | ⟨h0, hs0⟩
  · rw [hd] at hres
    simp only [Except.ok.injEq] at hres
    intro hmem
    rw [← hres] at hmem
    obtain ⟨r, hr, hx⟩ := hfin t hmem
    exact hgone r hr hx.symm
  · rw [hd] at hres
    simp only [] at hres
    cases hfetch : c.get_calendar_resources cal (h0 :: hs0) with
    | error e => rw [hfetch] at hres; simp at hres
    | ok fetched =>
      rw [hfetch] at hres
      simp only [Except.ok.injEq] at hres
      intro hmem
      rw [← hres] at hmem
      rcases parseFetched_mem ext cal fetched _ t hmem with h | h
      · obtain ⟨r, hr, hx⟩ := hfin t h
        exact hgone r hr hx.symm
      · obtain ⟨it, hit, hhref⟩ := h
        have hin : it.href ∈ h0 :: hs0 := hserver _ fetched hfetch it hit
        rw [← hd] at hin
        obtain ⟨r, hr, hx⟩ := htf it.href hin
        exact hgone r hr (by rw [← hx, ← hhref])

/-- A remote with an empty resource listing and empty multiget answers. -/
def emptyListRemote : Remote :=
  { failRemote with
    list_resources := fun _ => .ok []
    get_calendar_resources := fun _ _ => .ok [] }

/-- Witness for C5: a cached task on a now-empty server vanishes from the
result. -/
theorem c5_deletion_propagation_witness :
    ¬ task0 ∈ [] ∧
    (get_tasks (some emptyListRemote) ext0
      { emptyState with cacheTasks := fun _ => [task0] } "https://cal/x/").res =
      .ok [] := by
  constructor
  · exact c5_deletion_propagation emptyListRemote ext0
      { emptyState with cacheTasks := fun _ => [task0] } "https://cal/x/"
      [] task0 [] (by decide) rfl
      (fun hs items h => by
        simp only [emptyListRemote] at h
        cases h
        intro it hit
        simp at hit)
      (by simp) (by simp) rfl
  · rfl

/-! ### Claim C4 — zero-fetch idempotence machinery -/

/-- Inserting a fresh key appends. -/
theorem insertMap_append (m : List (String × Task)) (k : String) (v : Task)
    (h : k ∉ m.map Prod.fst) : insertMap m k v = m ++ [(k, v)] := by
  induction m with
  | nil => rfl
  | cons p rest ih =>
    simp only [List.map_cons, List.mem_cons] at h
    push_neg at h
    rw [insertMap, if_neg (fun hp => h.1 hp.symm), ih h.2]
    rfl

/-- With pairwise-distinct hrefs the cache map is just the association
list of the cached tasks. -/
theorem buildMap_eq_of_nodup (ts : List Task)
    (h : (ts.map Task.href).Nodup) :
    buildMap ts = ts.map (fun t => (t.href, t)) := by
  have hgen : ∀ (l : List Task) (acc : List (String × Task)),
      (acc.map Prod.fst ++ l.map Task.href).Nodup →
      l.foldl (fun m t => insertMap m t.href t) acc =
        acc ++ l.map (fun t => (t.href, t)) := by
    intro l
    induction l with
    | nil => intro acc _; simp
    | cons t rest ih =>
      intro acc hacc
      have hsplit := List.nodup_append.mp (by simpa using hacc)
      have hmemk : t.href ∉ acc.map Prod.fst := fun hmem =>
        hsplit.2.2 hmem (List.mem_cons_self _ _)
      rw [List.foldl_cons, insertMap_append acc t.href t hmemk,
        ih (acc ++ [(t.href, t)]) (by simpa [List.append_assoc] using hacc)]
      simp
  simpa using hgen ts [] (by simpa using h)

/-- Removal of a present key from a key-nodup map: the exact entry is
returned, values are preserved up to permutation, key-nodup is kept, and
every entry with a different key survives. -/
theorem removeKey_decomp (m : List (String × Task)) (k : String) (v : Task)
    (hnd : (m.map Prod.fst).Nodup) (hmem : (k, v) ∈ m) :
    ∃ m', removeKey m k = (some v, m') ∧
      (m.map Prod.snd).Perm (v :: m'.map Prod.snd) ∧
      (m'.map Prod.fst).Nodup ∧
      (∀ p ∈ m, p.1 ≠ k → p ∈ m') := by
  induction m with
  | nil => cases hmem
  | cons p rest ih =>
    have hnd0 : (p.1 :: rest.map Prod.fst).Nodup := by
      rw [← List.map_cons]
      exact hnd
    have hnd' := List.nodup_cons.mp hnd0
    rcases List.mem_cons.mp hmem with hp | hp
    · have hpk : p.1 = k := by rw [← hp]
      have hpv : p.2 = v := by rw [← hp]
      refine ⟨rest, ?_, ?_, hnd'.2, ?_⟩
      · rw [removeKey, if_pos hpk, hpv]
      · rw [List.map_cons, hpv]
      · intro q hq hqk
        rcases List.mem_cons.mp hq with h | h
        · exact absurd (h ▸ hpk) hqk
        · exact h
    · have hk : k ∈ rest.map Prod.fst :=
        List.mem_map.mpr ⟨(k, v), hp, rfl⟩
      have hpk : p.1 ≠ k := fun he => hnd'.1 (he ▸ hk)
      obtain ⟨m', h1, h2, h3, h4⟩ := ih hnd'.2 hp
      have hsub : ∀ q ∈ m', q ∈ rest := (removeKey_spec rest k v m' h1).2
      refine ⟨p :: m', ?_, ?_, ?_, ?_⟩
      · rw [removeKey, if_neg hpk, h1]
      · rw [List.map_cons, List.map_cons]
        exact (h2.cons p.2).trans (List.Perm.swap v p.2 (m'.map Prod.snd))
      · rw [List.map_cons]
        refine List.nodup_cons.mpr ⟨?_, h3⟩
        intro hmem2
        obtain ⟨q, hq, hq2⟩ := List.mem_map.mp hmem2
        exact hnd'.1 (List.mem_map.mpr ⟨q, hsub q hq, hq2⟩)
      · intro q hq hqk
        rcases List.mem_cons.mp hq with h | h
        · exact h ▸ List.mem_cons_self p m'
        · exact List.mem_cons_of_mem p (h4 q h hqk)

/-- When every listed resource matches its cached entry exactly (nonempty
equal etags), the delta loop keeps everything, fetches nothing, and the
kept tasks are the removed map values. -/
theorem deltaLoop_all_match (rs : List Resource) :
    ∀ m, (rs.map Resource.href).Nodup →
      (m.map Prod.fst).Nodup →
      (∀ r ∈ rs, endsWithS r.href ".ics" = true) →
      (∀ r ∈ rs, ∃ v, (r.href, v) ∈ m ∧ r.etag = some v.etag ∧ v.etag ≠ "") →
      ∃ f m', deltaLoop rs m = (f, [], m') ∧
        (m.map Prod.snd).Perm (f ++ m'.map Prod.snd) ∧
        f.length = rs.length := by
  induction rs with
  | nil => intro m _ _ _ _; exact ⟨[], m, rfl, by simp, rfl⟩
  | cons r rs ih =>
    intro m hndr hndm hics hlook
    obtain ⟨v, hvm, hetag, hvne⟩ := hlook r (List.mem_cons_self r rs)
    obtain ⟨m2, hrk, hperm2, hnd2, hkeep⟩ := removeKey_decomp m r.href v hndm hvm
    have hndr0 : (r.href :: rs.map Resource.href).Nodup := by
      rw [← List.map_cons]
      exact hndr
    have hndr' := List.nodup_cons.mp hndr0
    have hlook2 : ∀ r' ∈ rs, ∃ v', (r'.href, v') ∈ m2 ∧
        r'.etag = some v'.etag ∧ v'.etag ≠ "" := by
      intro r' hr'
      obtain ⟨v', hv', he', hn'⟩ := hlook r' (List.mem_cons_of_mem r hr')
      refine ⟨v', hkeep _ hv' ?_, he', hn'⟩
      intro heq
      exact hndr'.1 (heq ▸ List.mem_map.mpr ⟨r', hr', rfl⟩)
    obtain ⟨f, m', hdl, hperm, hlen⟩ := ih m2 hndr'.2 hnd2
      (fun r' hr' => hics r' (List.mem_cons_of_mem r hr')) hlook2
    refine ⟨v :: f, m', ?_, ?_, ?_⟩
    · simp [deltaLoop, hics r (List.mem_cons_self r rs), hrk, hetag, hvne, hdl]
    · exact hperm2.trans (hperm.cons v)
    · simp [hlen]

/-- Claim C4: for a remote calendar whose cached (href, etag) set exactly
matches the remote listing (all task documents, nonempty equal etags,
duplicate-free hrefs on both sides), `get_tasks` issues no multiget — its
trace beyond the journal flush is the single PROPFIND listing — and the
result is exactly the cached task set (a permutation of the cache). -/
theorem c4_zero_fetch (c : Remote) (ext : ChronoExt) (st : EngineState)
    (cal : String) (rs : List Resource)
    (hne : cal ≠ LOCAL_CALENDAR_HREF)
    (hlist : c.list_resources cal = .ok rs)
    (hics : ∀ r ∈ rs, endsWithS r.href ".ics" = true)
    (hndr : (rs.map Resource.href).Nodup)
    (hndc : ((st.cacheTasks cal).map Task.href).Nodup)
    (hfwd : ∀ r ∈ rs, ∃ t ∈ st.cacheTasks cal,
      t.href = r.href ∧ r.etag = some t.etag ∧ t.etag ≠ "")
    (hbwd : ∀ t ∈ st.cacheTasks cal, ∃ r ∈ rs, r.href = t.href) :
    ∃ l, (get_tasks (some c) ext st cal).res = .ok l ∧
      l.Perm (st.cacheTasks cal) ∧
      (get_tasks (some c) ext st cal).trace =
        (sync_journal (some c) ext st).2 ++ [.listRes cal] := by
  have hct : (sync_journal (some c) ext st).1.cacheTasks = st.cacheTasks :=
    (sync_journal_fields (some c) ext st).2.2
  have hbm := buildMap_eq_of_nodup (st.cacheTasks cal) hndc
  have hkeysnd : ((buildMap (st.cacheTasks cal)).map Prod.fst).Nodup := by
    rw [hbm, List.map_map]
    simpa [Function.comp_def] using hndc
  have hlook : ∀ r ∈ rs, ∃ v, (r.href, v) ∈ buildMap (st.cacheTasks cal) ∧
      r.etag = some v.etag ∧ v.etag ≠ "" := by
    intro r hr
    obtain ⟨t, ht, hx, he, hn⟩ := hfwd r hr
    exact ⟨t, by
      rw [hbm]
      exact hx ▸ List.mem_map.mpr ⟨t, ht, rfl⟩, he, hn⟩
  obtain ⟨f, m', hdl, hperm, hlen⟩ :=
    deltaLoop_all_match rs (buildMap (st.cacheTasks cal)) hndr hkeysnd hics hlook
  have hvals : (buildMap (st.cacheTasks cal)).map Prod.snd = st.cacheTasks cal := by
    rw [hbm, List.map_map]
    simp [Function.comp_def]
  have hsub1 : rs.map Resource.href ⊆ (st.cacheTasks cal).map Task.href := by
    intro x hx
    obtain ⟨r, hr, rfl⟩ := List.mem_map.mp hx
    obtain ⟨t, ht, hx', _, _⟩ := hfwd r hr
    exact List.mem_map.mpr ⟨t, ht, hx'⟩
  have hsub2 : (st.cacheTasks cal).map Task.href ⊆ rs.map Resource.href := by
    intro x hx
    obtain ⟨t, ht, rfl⟩ := List.mem_map.mp hx
    obtain ⟨r, hr, hx'⟩ := hbwd t ht
    exact List.mem_map.mpr ⟨r, hr, hx'⟩
  have hlencc : (st.cacheTasks cal).length = rs.length := by
    have h1 := (hndr.subperm hsub1).length_le
    have h2 := (hndc.subperm hsub2).length_le
    simp only [List.length_map] at h1 h2
    omega
  have hm' : m' = [] := by
    have hl := hperm.length_eq
    rw [hvals] at hl
    simp only [List.length_append, List.length_map] at hl
    have : m'.length = 0 := by omega
    exact List.length_eq_zero.mp this
  subst hm'
  have hpermc : f.Perm (st.cacheTasks cal) := by
    have := hperm.symm
    rw [hvals] at this
    simpa using this
  refine ⟨f, ?_, hpermc, ?_⟩
  · simp only [get_tasks, hne, if_false, hlist, hct]
    rw [hdl]
  · simp only [get_tasks, hne, if_false, hlist, hct]
    rw [hdl]

/-- A fully cached task for the C4 witness. -/
def taskC4 : Task :=
  { task0 with uid := "a", href := "https://cal/x/a.ics", etag := "w1" }

/-- A remote whose listing matches the C4 cache exactly. -/
def matchRemote : Remote :=
  { failRemote with
    list_resources := fun _ =>
      .ok [{ href := "https://cal/x/a.ics", etag := some "w1" }] }

/-- Witness for C4: an exactly-matching cache is returned untouched and
the trace holds no multiget. -/
theorem c4_zero_fetch_witness :
    ∃ l, (get_tasks (some matchRemote) ext0
        { emptyState with cacheTasks := fun _ => [taskC4] } "https://cal/x/").res =
        .ok l ∧
      l.Perm (({ emptyState with
        cacheTasks := fun _ => [taskC4] } : EngineState).cacheTasks "https://cal/x/") ∧
      (get_tasks (some matchRemote) ext0
        { emptyState with cacheTasks := fun _ => [taskC4] } "https://cal/x/").trace =
        (sync_journal (some matchRemote) ext0
          { emptyState with cacheTasks := fun _ => [taskC4] }).2 ++
          [.listRes "https://cal/x/"] :=
  c4_zero_fetch matchRemote ext0
    { emptyState with cacheTasks := fun _ => [taskC4] } "https://cal/x/"
    [{ href := "https://cal/x/a.ics", etag := some "w1" }]
    (by decide) rfl (by decide) (by decide) (by decide) (by decide) (by decide)

/-! ### Claim C7 — codec lemmas: lines, names, values -/

/-- Rebuilding a string from its characters is the identity. -/
theorem mk_data (s : String) : String.mk s.data = s := by
  cases s
  rfl

/-- Characters of a built content line. -/
theorem mkLine_data (n v : String) :
    (mkLine n v).data = n.data ++ ':' :: v.data := by
  cases n with
  | mk a =>
    cases v with
    | mk b =>
      show (String.mk a ++ ":" ++ String.mk b).data = a ++ ':' :: b
      have h1 : (String.mk a ++ ":" : String) = String.mk (a ++ [':']) := rfl
      rw [h1]
      have h2 : (String.mk (a ++ [':']) ++ String.mk b : String) =
          String.mk ((a ++ [':']) ++ b) := rfl
      rw [h2]
      simp

/-- Head-form of a built content line with a nonempty name. -/
theorem mkLine_data_cons (n v : String) (c : Char) (nr : List Char)
    (h : n.data = c :: nr) :
    (mkLine n v).data = c :: (nr ++ ':' :: v.data) := by
  rw [mkLine_data, h]
  rfl

/-- `takeWhile` passes over a fully satisfying prefix. -/
theorem takeWhile_append_all {α : Type} (p : α → Bool) (a b : List α)
    (h : ∀ x ∈ a, p x = true) :
    (a ++ b).takeWhile p = a ++ b.takeWhile p := by
  induction a with
  | nil => rfl
  | cons x xs ih =>
    have hx := h x (List.mem_cons_self x xs)
    simp only [List.cons_append, List.takeWhile_cons, hx, if_true]
    rw [ih (fun y hy => h y (List.mem_cons_of_mem x hy))]

/-- `dropWhile` skips a fully satisfying prefix. -/
theorem dropWhile_append_all {α : Type} (p : α → Bool) (a b : List α)
    (h : ∀ x ∈ a, p x = true) :
    (a ++ b).dropWhile p = b.dropWhile p := by
  induction a with
  | nil => rfl
  | cons x xs ih =>
    have hx := h x (List.mem_cons_self x xs)
    simp only [List.cons_append, List.dropWhile_cons, hx, if_true]
    exact ih (fun y hy => h y (List.mem_cons_of_mem x hy))

/-- Name of a line whose property name is free of `:` and `;`. -/
theorem lineName_mkLine (n v : String)
    (h : ∀ c ∈ n.data, (!(c == ':') && !(c == ';')) = true) :
    lineName (mkLine n v) = n := by
  rw [lineName, mkLine_data, takeWhile_append_all _ _ _ h]
  have : List.takeWhile (fun c => !(c == ':') && !(c == ';'))
      (':' :: v.data) = [] := by
    simp [List.takeWhile_cons]
  rw [this, List.append_nil, mk_data]

/-- `split_once(':')` on a name–value line with a colon-free name. -/
theorem splitOnceColon_append (n v : List Char) (h : ∀ c ∈ n, ¬c = ':') :
    splitOnceColon (n ++ ':' :: v) = some (n, v) := by
  induction n with
  | nil => simp [splitOnceColon]
  | cons c cs ih =>
    have hc := h c (List.mem_cons_self c cs)
    have ih' := ih (fun x hx => h x (List.mem_cons_of_mem c hx))
    simp [splitOnceColon, hc, ih']

/-- Value of a line whose property name is colon-free. -/
theorem lineValue_mkLine (n v : String) (h : ∀ c ∈ n.data, ¬c = ':') :
    lineValue (mkLine n v) = v := by
  rw [lineValue, mkLine_data, splitOnceColon_append _ _ h]

/-- Names of the concrete lines built by the encoder. -/
theorem lineName_DESCRIPTION (v : String) :
    lineName (mkLine "DESCRIPTION" v) = "DESCRIPTION" :=
  lineName_mkLine _ _ (by decide)

theorem lineName_DTSTAMP (v : String) :
    lineName (mkLine "DTSTAMP" v) = "DTSTAMP" :=
  lineName_mkLine _ _ (by decide)

theorem lineName_DTSTART (v : String) :
    lineName (mkLine "DTSTART" v) = "DTSTART" :=
  lineName_mkLine _ _ (by decide)

theorem lineName_DUE (v : String) :
    lineName (mkLine "DUE" v) = "DUE" :=
  lineName_mkLine _ _ (by decide)

theorem lineName_XEST (v : String) :
    lineName (mkLine "X-ESTIMATED-DURATION" v) = "X-ESTIMATED-DURATION" :=
  lineName_mkLine _ _ (by decide)

theorem lineName_DURATION (v : String) :
    lineName (mkLine "DURATION" v) = "DURATION" :=
  lineName_mkLine _ _ (by decide)

theorem lineName_PRIORITY (v : String) :
    lineName (mkLine "PRIORITY" v) = "PRIORITY" :=
  lineName_mkLine _ _ (by decide)

theorem lineName_RRULE (v : String) :
    lineName (mkLine "RRULE" v) = "RRULE" :=
  lineName_mkLine _ _ (by decide)

theorem lineName_STATUS (v : String) :
    lineName (mkLine "STATUS" v) = "STATUS" :=
  lineName_mkLine _ _ (by decide)

theorem lineName_SUMMARY (v : String) :
    lineName (mkLine "SUMMARY" v) = "SUMMARY" :=
  lineName_mkLine _ _ (by decide)

theorem lineName_UID (v : String) :
    lineName (mkLine "UID" v) = "UID" :=
  lineName_mkLine _ _ (by decide)

theorem lineName_RELATED (v : String) :
    lineName (mkLine "RELATED-TO" v) = "RELATED-TO" :=
  lineName_mkLine _ _ (by decide)

theorem lineName_CATEGORIES (v : String) :
    lineName (mkLine "CATEGORIES" v) = "CATEGORIES" :=
  lineName_mkLine _ _ (by decide)

/-- The dependency line's name stops at the `;` parameter separator. -/
theorem lineName_DEP (v : String) :
    lineName (mkLine "RELATED-TO;RELTYPE=DEPENDS-ON" v) = "RELATED-TO" := by
  rw [lineName, mkLine_data]
  have hsplit : ("RELATED-TO;RELTYPE=DEPENDS-ON" : String).data =
      ("RELATED-TO" : String).data ++ ';' :: ("RELTYPE=DEPENDS-ON" : String).data :=
    by decide
  have h1 : ("RELATED-TO;RELTYPE=DEPENDS-ON" : String).data ++ ':' :: v.data =
      ("RELATED-TO" : String).data ++
        (';' :: (("RELTYPE=DEPENDS-ON" : String).data ++ ':' :: v.data)) := by
    rw [hsplit]
    simp
  rw [h1, takeWhile_append_all _ _ _ (by decide)]
  have h2 : List.takeWhile (fun c => !(c == ':') && !(c == ';'))
      (';' :: (("RELTYPE=DEPENDS-ON" : String).data ++ ':' :: v.data)) = [] := by
    simp [List.takeWhile_cons]
  rw [h2, List.append_nil, mk_data]

/-! ### Claim C7 — property lookup over the encoded document -/

theorem getProp_cons_ne (l : String) (ls : List String) (n : String)
    (h : ¬lineName l = n) : getProp (l :: ls) n = getProp ls n := by
  simp [getProp, h]

theorem getProp_cons_eq (l : String) (ls : List String) (n : String)
    (h : lineName l = n) : getProp (l :: ls) n = some (lineValue l) := by
  simp [getProp, h]

theorem getProp_append_none (a b : List String) (n : String)
    (h : getProp a n = none) : getProp (a ++ b) n = getProp b n := by
  induction a with
  | nil => rfl
  | cons l ls ih =>
    by_cases hl : lineName l = n
    · rw [getProp_cons_eq l ls n hl] at h
      cases h
    · rw [getProp_cons_ne l ls n hl] at h
      rw [List.cons_append, getProp_cons_ne l _ n hl]
      exact ih h

/-- The DESCRIPTION group answers no other property name. -/
theorem getProp_descLines (t : Task) (n : String) (h : ¬n = "DESCRIPTION") :
    getProp (descLines t) n = none := by
  rw [descLines]
  split
  · rfl
  · rw [getProp_cons_ne _ _ _ (by rw [lineName_DESCRIPTION]; exact fun he => h he.symm)]
    rfl

/-- The DTSTART group answers no other property name. -/
theorem getProp_dtstartLines (ext : ChronoExt) (t : Task) (n : String)
    (h : ¬n = "DTSTART") : getProp (dtstartLines ext t) n = none := by
  rw [dtstartLines]
  cases t.dtstart
  · rfl
  · rw [getProp_cons_ne _ _ _ (by rw [lineName_DTSTART]; exact fun he => h he.symm)]
    rfl

/-- The DUE/duration group answers no other property name. -/
theorem getProp_dueLines (ext : ChronoExt) (t : Task) (n : String)
    (h1 : ¬n = "DUE") (h2 : ¬n = "X-ESTIMATED-DURATION")
    (h3 : ¬n = "DURATION") : getProp (dueLines ext t) n = none := by
  have hd : ¬("DUE" : String) = n := fun he => h1 he.symm
  have hx : ¬("X-ESTIMATED-DURATION" : String) = n := fun he => h2 he.symm
  have hdu : ¬("DURATION" : String) = n := fun he => h3 he.symm
  rw [dueLines]
  cases t.due <;> cases t.estimated_duration <;>
    simp [getProp, lineName_DUE, lineName_XEST, lineName_DURATION, hd, hx, hdu]

/-- The PRIORITY group answers no other property name. -/
theorem getProp_priorityLines (t : Task) (n : String) (h : ¬n = "PRIORITY") :
    getProp (priorityLines t) n = none := by
  rw [priorityLines]
  split
  · rw [getProp_cons_ne _ _ _ (by rw [lineName_PRIORITY]; exact fun he => h he.symm)]
    rfl
  · rfl

/-- The RRULE group answers no other property name. -/
theorem getProp_rruleLines (t : Task) (n : String) (h : ¬n = "RRULE") :
    getProp (rruleLines t) n = none := by
  rw [rruleLines]
  cases t.rrule
  · rfl
  · rw [getProp_cons_ne _ _ _ (by rw [lineName_RRULE]; exact fun he => h he.symm)]
    rfl

/-- The RELATED-TO group answers no other property name (both the parent
and the dependency lines present the name `RELATED-TO`). -/
theorem getProp_relatedLines (t : Task) (n : String) (h : ¬n = "RELATED-TO") :
    getProp (relatedLines t) n = none := by
  rw [relatedLines]
  have hdeps : ∀ ds : List String,
      getProp (ds.map (fun d => mkLine "RELATED-TO;RELTYPE=DEPENDS-ON" d)) n =
        none := by
    intro ds
    induction ds with
    | nil => rfl
    | cons d rest ih =>
      rw [List.map_cons,
        getProp_cons_ne _ _ _ (by rw [lineName_DEP]; exact fun he => h he.symm)]
      exact ih
  cases t.parent_uid
  · rw [List.nil_append]
    exact hdeps t.dependencies
  · rw [List.singleton_append,
      getProp_cons_ne _ _ _ (by rw [lineName_RELATED]; exact fun he => h he.symm)]
    exact hdeps t.dependencies

/-- The CATEGORIES group answers no other property name. -/
theorem getProp_categoriesLines (t : Task) (n : String)
    (h : ¬n = "CATEGORIES") : getProp (categoriesLines t) n = none := by
  rw [categoriesLines]
  split
  · rfl
  · rw [getProp_cons_ne _ _ _ (by rw [lineName_CATEGORIES]; exact fun he => h he.symm)]
    rfl

/-- Every inner line differs from the closing `END:VTODO` line (all the
generated names start with a character other than `E`, so the line text
cannot coincide). -/
theorem innerLines_ne_end (ext : ChronoExt) (t : Task) :
    ∀ l ∈ innerLines ext t, (!(l == "END:VTODO")) = true := by
  have hend : ("END:VTODO" : String).data = 'E' :: ("ND:VTODO" : String).data := rfl
  have hne : ∀ (nm v : String) (c : Char) (nr : List Char),
      nm.data = c :: nr → ¬c = 'E' → (!(mkLine nm v == "END:VTODO")) = true := by
    intro nm v c nr hnm hc
    have hne' : mkLine nm v ≠ "END:VTODO" := by
      intro he
      have := congrArg String.data he
      rw [mkLine_data_cons nm v c nr hnm, hend] at this
      exact hc (List.head_eq_of_cons_eq this)
    simp [hne']
  have hDesc : ∀ l ∈ descLines t, (!(l == "END:VTODO")) = true := by
    rw [descLines]
    split
    · intro l hl; cases hl
    · intro l hl
      rw [List.mem_singleton] at hl
      exact hl ▸ hne _ _ 'D' _ rfl (by decide)
  have hDtstart : ∀ l ∈ dtstartLines ext t, (!(l == "END:VTODO")) = true := by
    rw [dtstartLines]
    cases t.dtstart
    · intro l hl; cases hl
    · intro l hl
      rw [List.mem_singleton] at hl
      exact hl ▸ hne _ _ 'D' _ rfl (by decide)
  have hDue : ∀ l ∈ dueLines ext t, (!(l == "END:VTODO")) = true := by
    rw [dueLines]
    cases t.due with
    | none =>
      cases t.estimated_duration with
      | none => intro l hl; cases hl
      | some m =>
        intro l hl
        rw [List.mem_singleton] at hl
        exact hl ▸ hne _ _ 'D' _ rfl (by decide)
    | some i =>
      cases t.estimated_duration with
      | none =>
        intro l hl
        simp only [List.append_nil, List.mem_singleton] at hl
        exact hl ▸ hne _ _ 'D' _ rfl (by decide)
      | some m =>
        intro l hl
        simp only [List.mem_append, List.mem_singleton] at hl
        rcases hl with hl | hl
        · exact hl ▸ hne _ _ 'D' _ rfl (by decide)
        · exact hl ▸ hne _ _ 'X' _ rfl (by decide)
  have hPrio : ∀ l ∈ priorityLines t, (!(l == "END:VTODO")) = true := by
    rw [priorityLines]
    split
    · intro l hl
      rw [List.mem_singleton] at hl
      exact hl ▸ hne _ _ 'P' _ rfl (by decide)
    · intro l hl; cases hl
  have hRrule : ∀ l ∈ rruleLines t, (!(l == "END:VTODO")) = true := by
    rw [rruleLines]
    cases t.rrule
    · intro l hl; cases hl
    · intro l hl
      rw [List.mem_singleton] at hl
      exact hl ▸ hne _ _ 'R' _ rfl (by decide)
  have hRel : ∀ l ∈ relatedLines t, (!(l == "END:VTODO")) = true := by
    rw [relatedLines]
    cases t.parent_uid <;> intro l hl <;>
      rcases List.mem_append.mp hl with h' | h'
    · cases h'
    · obtain ⟨d, _, rfl⟩ := List.mem_map.mp h'
      exact hne _ _ 'R' _ rfl (by decide)
    · rw [List.mem_singleton] at h'
      exact h' ▸ hne _ _ 'R' _ rfl (by decide)
    · obtain ⟨d, _, rfl⟩ := List.mem_map.mp h'
      exact hne _ _ 'R' _ rfl (by decide)
  have hCats : ∀ l ∈ categoriesLines t, (!(l == "END:VTODO")) = true := by
    rw [categoriesLines]
    split
    · intro l hl; cases hl
    · intro l hl
      rw [List.mem_singleton] at hl
      exact hl ▸ hne _ _ 'C' _ rfl (by decide)
  intro l hl
  rw [innerLines] at hl
  rcases List.mem_append.mp hl with hl | h
  rotate_left
  · exact hCats l h
  rcases List.mem_append.mp hl with hl | h
  rotate_left
  · exact hRel l h
  rcases List.mem_append.mp hl with hl | h
  rotate_left
  · rcases List.mem_cons.mp h with h' | h'
    · exact h' ▸ hne _ _ 'S' _ rfl (by decide)
    rcases List.mem_cons.mp h' with h'' | h''
    · exact h'' ▸ hne _ _ 'S' _ rfl (by decide)
    rw [List.mem_singleton] at h''
    exact h'' ▸ hne _ _ 'U' _ rfl (by decide)
  rcases List.mem_append.mp hl with hl | h
  rotate_left
  · exact hRrule l h
  rcases List.mem_append.mp hl with hl | h
  rotate_left
  · exact hPrio l h
  rcases List.mem_append.mp hl with hl | h
  rotate_left
  · exact hDue l h
  rcases List.mem_append.mp hl with hl | h
  rotate_left
  · exact hDtstart l h
  rcases List.mem_append.mp hl with hl | h
  rotate_left
  · rw [List.mem_singleton] at h
    exact h ▸ hne _ _ 'D' _ rfl (by decide)
  · exact hDesc l hl

/-- The parsed VTODO block of an encoded document is exactly the inner
line group. -/
theorem vtodoBlock_to_ics (ext : ChronoExt) (t : Task) :
    vtodoBlock (to_ics ext t) = innerLines ext t := by
  rw [vtodoBlock, to_ics, List.append_assoc]
  have hdrop : (["BEGIN:VCALENDAR", "VERSION:2.0", "PRODID:ICALENDAR-RS",
      "CALSCALE:GREGORIAN", "BEGIN:VTODO"] ++
      (innerLines ext t ++ ["END:VTODO", "END:VCALENDAR"])).dropWhile
        (fun l => !(l == "BEGIN:VTODO")) =
      "BEGIN:VTODO" :: (innerLines ext t ++ ["END:VTODO", "END:VCALENDAR"]) := by
    simp [List.dropWhile_cons]
  rw [hdrop, List.drop_one, List.tail_cons,
    takeWhile_append_all _ _ _ (innerLines_ne_end ext t)]
  have hend2 : List.takeWhile (fun l => !(l == "END:VTODO"))
      ["END:VTODO", "END:VCALENDAR"] = [] := by
    simp [List.takeWhile_cons]
  rw [hend2, List.append_nil]

/-! ### Claim C7 — field lookups over the encoded document -/

theorem getProp_append_some (a b : List String) (n v : String)
    (h : getProp a n = some v) : getProp (a ++ b) n = some v := by
  induction a with
  | nil => cases h
  | cons l ls ih =>
    by_cases hl : lineName l = n
    · rw [getProp_cons_eq l ls n hl] at h
      rw [List.cons_append, getProp_cons_eq l _ n hl]
      exact h
    · rw [getProp_cons_ne l ls n hl] at h
      rw [List.cons_append, getProp_cons_ne l _ n hl]
      exact ih h

theorem lineValue_DTSTART (v : String) :
    lineValue (mkLine "DTSTART" v) = v := lineValue_mkLine _ _ (by decide)

theorem lineValue_DUE (v : String) :
    lineValue (mkLine "DUE" v) = v := lineValue_mkLine _ _ (by decide)

theorem lineValue_RRULE (v : String) :
    lineValue (mkLine "RRULE" v) = v := lineValue_mkLine _ _ (by decide)

theorem lineValue_STATUS (v : String) :
    lineValue (mkLine "STATUS" v) = v := lineValue_mkLine _ _ (by decide)

theorem lineValue_SUMMARY (v : String) :
    lineValue (mkLine "SUMMARY" v) = v := lineValue_mkLine _ _ (by decide)

theorem lineValue_UID (v : String) :
    lineValue (mkLine "UID" v) = v := lineValue_mkLine _ _ (by decide)

theorem lineValue_CATEGORIES (v : String) :
    lineValue (mkLine "CATEGORIES" v) = v := lineValue_mkLine _ _ (by decide)

/-- Lookup of a name that none of the groups before STATUS carries. -/
theorem getProp_preTrio (ext : ChronoExt) (t : Task) (n : String)
    (h1 : ¬n = "DESCRIPTION") (h2 : ¬n = "DTSTAMP") (h3 : ¬n = "DTSTART")
    (h4 : ¬n = "DUE") (h5 : ¬n = "X-ESTIMATED-DURATION")
    (h6 : ¬n = "DURATION") (h7 : ¬n = "PRIORITY") (h8 : ¬n = "RRULE") :
    getProp (descLines t ++ [mkLine "DTSTAMP" (ext.fmt ext.now)] ++
      dtstartLines ext t ++ dueLines ext t ++ priorityLines t ++
      rruleLines t) n = none := by
  rw [getProp_append_none _ _ _ (by
    rw [getProp_append_none _ _ _ (by
      rw [getProp_append_none _ _ _ (by
        rw [getProp_append_none _ _ _ (by
          rw [getProp_append_none _ _ _ (getProp_descLines t n h1),
            getProp_cons_ne _ _ _
              (by rw [lineName_DTSTAMP]; exact fun he => h2 he.symm)]
          rfl)]
        exact getProp_dtstartLines ext t n h3)]
      exact getProp_dueLines ext t n h4 h5 h6)]
    exact getProp_priorityLines t n h7)]
  exact getProp_rruleLines t n h8

/-- The STATUS/SUMMARY/UID triple carries no other name. -/
theorem getProp_trio_ne (t : Task) (n : String)
    (h1 : ¬n = "STATUS") (h2 : ¬n = "SUMMARY") (h3 : ¬n = "UID")
    (v1 v2 v3 : String) :
    getProp [mkLine "STATUS" v1, mkLine "SUMMARY" v2, mkLine "UID" v3] n =
      none := by
  rw [getProp_cons_ne _ _ _ (by rw [lineName_STATUS]; exact fun he => h1 he.symm),
    getProp_cons_ne _ _ _ (by rw [lineName_SUMMARY]; exact fun he => h2 he.symm),
    getProp_cons_ne _ _ _ (by rw [lineName_UID]; exact fun he => h3 he.symm)]
  rfl

theorem getProp_inner_UID (ext : ChronoExt) (t : Task) :
    getProp (innerLines ext t) "UID" = some t.uid := by
  rw [innerLines]
  rw [getProp_append_some _ _ _ _ (getProp_append_some _ _ _ _ (by
    rw [getProp_append_none _ _ _
      (getProp_preTrio ext t "UID" (by decide) (by decide) (by decide)
        (by decide) (by decide) (by decide) (by decide) (by decide)),
      getProp_cons_ne _ _ _ (by rw [lineName_STATUS]; decide),
      getProp_cons_ne _ _ _ (by rw [lineName_SUMMARY]; decide),
      getProp_cons_eq _ _ _ (lineName_UID t.uid), lineValue_UID]))]

theorem getProp_inner_SUMMARY (ext : ChronoExt) (t : Task) :
    getProp (innerLines ext t) "SUMMARY" = some t.summary := by
  rw [innerLines]
  rw [getProp_append_some _ _ _ _ (getProp_append_some _ _ _ _ (by
    rw [getProp_append_none _ _ _
      (getProp_preTrio ext t "SUMMARY" (by decide) (by decide) (by decide)
        (by decide) (by decide) (by decide) (by decide) (by decide)),
      getProp_cons_ne _ _ _ (by rw [lineName_STATUS]; decide),
      getProp_cons_eq _ _ _ (lineName_SUMMARY t.summary),
      lineValue_SUMMARY]))]

theorem getProp_inner_STATUS (ext : ChronoExt) (t : Task) :
    getProp (innerLines ext t) "STATUS" = some (statusLine t.status) := by
  rw [innerLines]
  rw [getProp_append_some _ _ _ _ (getProp_append_some _ _ _ _ (by
    rw [getProp_append_none _ _ _
      (getProp_preTrio ext t "STATUS" (by decide) (by decide) (by decide)
        (by decide) (by decide) (by decide) (by decide) (by decide)),
      getProp_cons_eq _ _ _ (lineName_STATUS (statusLine t.status)),
      lineValue_STATUS]))]

theorem getProp_inner_RRULE (ext : ChronoExt) (t : Task) :
    getProp (innerLines ext t) "RRULE" = t.rrule := by
  rw [innerLines]
  have hpre : getProp (descLines t ++ [mkLine "DTSTAMP" (ext.fmt ext.now)] ++
      dtstartLines ext t ++ dueLines ext t ++ priorityLines t) "RRULE" = none := by
    rw [getProp_append_none _ _ _ (by
      rw [getProp_append_none _ _ _ (by
        rw [getProp_append_none _ _ _ (by
          rw [getProp_append_none _ _ _ (getProp_descLines t _ (by decide)),
            getProp_cons_ne _ _ _ (by rw [lineName_DTSTAMP]; decide)]
          rfl)]
        exact getProp_dtstartLines ext t _ (by decide))]
      exact getProp_dueLines ext t _ (by decide) (by decide) (by decide))]
    exact getProp_priorityLines t _ (by decide)
  cases hr : t.rrule with
  | some r =>
    rw [getProp_append_some _ _ _ _ (getProp_append_some _ _ _ _
      (getProp_append_some _ _ _ _ (by
        rw [getProp_append_none _ _ _ hpre, rruleLines, hr,
          getProp_cons_eq _ _ _ (lineName_RRULE r), lineValue_RRULE])))]
  | none =>
    rw [getProp_append_none _ _ _ (by
      rw [getProp_append_none _ _ _ (by
        rw [getProp_append_none _ _ _ (by
          rw [getProp_append_none _ _ _ hpre, rruleLines, hr]
          rfl)]
        exact getProp_trio_ne t _ (by decide) (by decide) (by decide) _ _ _)]
      exact getProp_relatedLines t _ (by decide))]
    exact getProp_categoriesLines t _ (by decide)

theorem getProp_inner_DTSTART (ext : ChronoExt) (t : Task) :
    getProp (innerLines ext t) "DTSTART" = t.dtstart.map ext.fmt := by
  rw [innerLines]
  have hpre : getProp (descLines t ++ [mkLine "DTSTAMP" (ext.fmt ext.now)])
      "DTSTART" = none := by
    rw [getProp_append_none _ _ _ (getProp_descLines t _ (by decide)),
      getProp_cons_ne _ _ _ (by rw [lineName_DTSTAMP]; decide)]
    rfl
  cases hd : t.dtstart with
  | some i =>
    have h3 : getProp (descLines t ++ [mkLine "DTSTAMP" (ext.fmt ext.now)] ++
        dtstartLines ext t) "DTSTART" = some (ext.fmt i) := by
      rw [getProp_append_none _ _ _ hpre, dtstartLines, hd,
        getProp_cons_eq _ _ _ (lineName_DTSTART (ext.fmt i)),
        lineValue_DTSTART]
    exact getProp_append_some _ _ _ _ (getProp_append_some _ _ _ _
      (getProp_append_some _ _ _ _ (getProp_append_some _ _ _ _
        (getProp_append_some _ _ _ _ (getProp_append_some _ _ _ _ h3)))))
  | none =>
    have h3 : getProp (descLines t ++ [mkLine "DTSTAMP" (ext.fmt ext.now)] ++
        dtstartLines ext t) "DTSTART" = none := by
      rw [getProp_append_none _ _ _ hpre, dtstartLines, hd]
      rfl
    have h4 := (getProp_append_none _ (dueLines ext t) _ h3).trans
      (getProp_dueLines ext t "DTSTART" (by decide) (by decide) (by decide))
    have h5 := (getProp_append_none _ (priorityLines t) _ h4).trans
      (getProp_priorityLines t "DTSTART" (by decide))
    have h6 := (getProp_append_none _ (rruleLines t) _ h5).trans
      (getProp_rruleLines t "DTSTART" (by decide))
    have h7 := (getProp_append_none _ [mkLine "STATUS" (statusLine t.status),
        mkLine "SUMMARY" t.summary, mkLine "UID" t.uid] _ h6).trans
      (getProp_trio_ne t "DTSTART" (by decide) (by decide) (by decide)
        (statusLine t.status) t.summary t.uid)
    have h8 := (getProp_append_none _ (relatedLines t) _ h7).trans
      (getProp_relatedLines t "DTSTART" (by decide))
    have h9 := (getProp_append_none _ (categoriesLines t) _ h8).trans
      (getProp_categoriesLines t "DTSTART" (by decide))
    exact h9

/-- The DUE group's own lookup. -/
theorem getProp_dueLines_self (ext : ChronoExt) (t : Task) :
    getProp (dueLines ext t) "DUE" = t.due.map ext.fmt := by
  rw [dueLines]
  cases t.due <;> cases t.estimated_duration <;>
    simp [getProp, lineName_DUE, lineName_XEST, lineName_DURATION,
      lineValue_DUE]

theorem getProp_inner_DUE (ext : ChronoExt) (t : Task) :
    getProp (innerLines ext t) "DUE" = t.due.map ext.fmt := by
  rw [innerLines]
  have hpre : getProp (descLines t ++ [mkLine "DTSTAMP" (ext.fmt ext.now)] ++
      dtstartLines ext t) "DUE" = none := by
    rw [getProp_append_none _ _ _ (by
      rw [getProp_append_none _ _ _ (getProp_descLines t _ (by decide)),
        getProp_cons_ne _ _ _ (by rw [lineName_DTSTAMP]; decide)]
      rfl)]
    exact getProp_dtstartLines ext t _ (by decide)
  cases hd : t.due with
  | some i =>
    have h4 : getProp (descLines t ++ [mkLine "DTSTAMP" (ext.fmt ext.now)] ++
        dtstartLines ext t ++ dueLines ext t) "DUE" = some (ext.fmt i) := by
      rw [getProp_append_none _ _ _ hpre, getProp_dueLines_self, hd]
      rfl
    exact getProp_append_some _ _ _ _ (getProp_append_some _ _ _ _
      (getProp_append_some _ _ _ _ (getProp_append_some _ _ _ _
        (getProp_append_some _ _ _ _ h4))))
  | none =>
    have h4 : getProp (descLines t ++ [mkLine "DTSTAMP" (ext.fmt ext.now)] ++
        dtstartLines ext t ++ dueLines ext t) "DUE" = none := by
      rw [getProp_append_none _ _ _ hpre, getProp_dueLines_self, hd]
      rfl
    have h5 := (getProp_append_none _ (priorityLines t) _ h4).trans
      (getProp_priorityLines t "DUE" (by decide))
    have h6 := (getProp_append_none _ (rruleLines t) _ h5).trans
      (getProp_rruleLines t "DUE" (by decide))
    have h7 := (getProp_append_none _ [mkLine "STATUS" (statusLine t.status),
        mkLine "SUMMARY" t.summary, mkLine "UID" t.uid] _ h6).trans
      (getProp_trio_ne t "DUE" (by decide) (by decide) (by decide)
        (statusLine t.status) t.summary t.uid)
    have h8 := (getProp_append_none _ (relatedLines t) _ h7).trans
      (getProp_relatedLines t "DUE" (by decide))
    have h9 := (getProp_append_none _ (categoriesLines t) _ h8).trans
      (getProp_categoriesLines t "DUE" (by decide))
    exact h9

/-! ### Claim C7 — categories round trip lemmas -/

theorem data_append (a b : String) : (a ++ b).data = a.data ++ b.data := by
  cases a
  cases b
  rfl

theorem replaceCommaEscAux_id (l : List Char) (h : ¬ ',' ∈ l) :
    replaceCommaEsc.replaceCommaEscAux l = l := by
  induction l with
  | nil => rfl
  | cons c cs ih =>
    simp only [List.mem_cons, not_or] at h
    rw [replaceCommaEsc.replaceCommaEscAux, if_neg (fun he => h.1 he.symm),
      ih h.2]

theorem replaceCommaEsc_id (s : String) (h : ¬ ',' ∈ s.data) :
    replaceCommaEsc s = s := by
  rw [replaceCommaEsc, replaceCommaEscAux_id s.data h, mk_data]

theorem splitCommaAux_no_comma (l : List Char) (h : ¬ ',' ∈ l) :
    ∀ acc, splitCommaAux l acc = [String.mk (acc.reverse ++ l)] := by
  induction l with
  | nil => intro acc; simp [splitCommaAux]
  | cons c cs ih =>
    intro acc
    simp only [List.mem_cons, not_or] at h
    rw [splitCommaAux, if_neg (fun he => h.1 he.symm), ih h.2]
    simp

theorem splitCommaAux_comma (pre suf : List Char) (h : ¬ ',' ∈ pre) :
    ∀ acc, splitCommaAux (pre ++ ',' :: suf) acc =
      String.mk (acc.reverse ++ pre) :: splitCommaAux suf [] := by
  induction pre with
  | nil => intro acc; simp [splitCommaAux]
  | cons c cs ih =>
    intro acc
    simp only [List.mem_cons, not_or] at h
    rw [List.cons_append, splitCommaAux, if_neg (fun he => h.1 he.symm),
      ih h.2]
    simp

theorem splitComma_joinComma (cs : List String)
    (hne : cs ≠ []) (hnc : ∀ c ∈ cs, ¬ ',' ∈ c.data) :
    splitComma (joinComma cs) = cs := by
  induction cs with
  | nil => cases hne rfl
  | cons c rest ih =>
    cases rest with
    | nil =>
      rw [joinComma, splitComma,
        splitCommaAux_no_comma c.data (hnc c (List.mem_cons_self c [])) []]
      simp [mk_data]
    | cons r rs =>
      have hc := hnc c (List.mem_cons_self c (r :: rs))
      have hdata : (c ++ "," ++ joinComma (r :: rs)).data =
          c.data ++ ',' :: (joinComma (r :: rs)).data := by
        rw [data_append, data_append]
        simp
      rw [joinComma, splitComma, hdata, splitCommaAux_comma c.data _ hc []]
      simp only [List.reverse_nil, List.nil_append, mk_data]
      rw [show splitCommaAux (joinComma (r :: rs)).data [] =
        splitComma (joinComma (r :: rs)) from rfl]
      have hih := ih (List.cons_ne_nil r rs)
        (fun x hx => hnc x (List.mem_cons_of_mem c hx))
      rw [hih]
      exact List.cons_ne_nil r rs

theorem map_trim_id (cs : List String) (h : ∀ c ∈ cs, trimS c = c) :
    cs.map trimS = cs := by
  induction cs with
  | nil => rfl
  | cons c rest ih =>
    rw [List.map_cons, h c (List.mem_cons_self c rest),
      ih (fun x hx => h x (List.mem_cons_of_mem c hx))]

theorem filter_nonempty_id (cs : List String) (h : ∀ c ∈ cs, ¬c = "") :
    cs.filter (fun s => !(s == "")) = cs := by
  induction cs with
  | nil => rfl
  | cons c rest ih =>
    have hc : (!(c == "")) = true := by
      simp [h c (List.mem_cons_self c rest)]
    rw [List.filter_cons, if_pos hc,
      ih (fun x hx => h x (List.mem_cons_of_mem c hx))]

theorem mem_insertSorted (x a : String) (l : List String) :
    a ∈ insertSorted x l ↔ a = x ∨ a ∈ l := by
  induction l with
  | nil => simp [insertSorted]
  | cons y rest ih =>
    rw [insertSorted]
    split
    · simp
    · simp only [List.mem_cons, ih]
      tauto

theorem mem_sortStr (a : String) (l : List String) :
    a ∈ sortStr l ↔ a ∈ l := by
  induction l with
  | nil => simp [sortStr]
  | cons x rest ih =>
    rw [sortStr, mem_insertSorted, ih]
    simp

theorem mem_dedupConsec (a : String) : ∀ l : List String,
    a ∈ dedupConsec l ↔ a ∈ l := by
  intro l
  induction l with
  | nil => simp [dedupConsec]
  | cons x rest ih =>
    cases rest with
    | nil => simp [dedupConsec]
    | cons y rs =>
      rw [dedupConsec]
      split
      · rename_i hxy
        rw [ih]
        subst hxy
        simp only [List.mem_cons]
        tauto
      · simp only [List.mem_cons] at ih ⊢
        rw [ih]

/-- The CATEGORIES lines of the encoded block are exactly the injected
group. -/
theorem filter_inner_cats (ext : ChronoExt) (t : Task) :
    (innerLines ext t).filter (fun l => lineName l == "CATEGORIES") =
      categoriesLines t := by
  have hbeq : ∀ (l : String), lineName l ≠ "CATEGORIES" →
      (lineName l == "CATEGORIES") = false := by
    intro l h
    simp [h]
  have hdesc : (descLines t).filter (fun l => lineName l == "CATEGORIES") = [] := by
    rw [descLines]
    split
    · rfl
    · rw [List.filter_cons_of_neg (by
        rw [hbeq _ (by rw [lineName_DESCRIPTION]; decide)]
        simp)]
      rfl
  have hdt1 : ([mkLine "DTSTAMP" (ext.fmt ext.now)]).filter
      (fun l => lineName l == "CATEGORIES") = [] := by
    rw [List.filter_cons_of_neg (by
      rw [hbeq _ (by rw [lineName_DTSTAMP]; decide)]
      simp)]
    rfl
  have hdts : (dtstartLines ext t).filter (fun l => lineName l == "CATEGORIES") = [] := by
    rw [dtstartLines]
    cases t.dtstart
    · rfl
    · rw [List.filter_cons_of_neg (by
        rw [hbeq _ (by rw [lineName_DTSTART]; decide)]
        simp)]
      rfl
  have hdue : (dueLines ext t).filter (fun l => lineName l == "CATEGORIES") = [] := by
    rw [dueLines]
    cases t.due <;> cases t.estimated_duration <;>
      simp [List.filter_append, lineName_DUE, lineName_XEST, lineName_DURATION]
  have hprio : (priorityLines t).filter (fun l => lineName l == "CATEGORIES") = [] := by
    rw [priorityLines]
    split
    · rw [List.filter_cons_of_neg (by
        rw [hbeq _ (by rw [lineName_PRIORITY]; decide)]
        simp)]
      rfl
    · rfl
  have hrr : (rruleLines t).filter (fun l => lineName l == "CATEGORIES") = [] := by
    rw [rruleLines]
    cases t.rrule
    · rfl
    · rw [List.filter_cons_of_neg (by
        rw [hbeq _ (by rw [lineName_RRULE]; decide)]
        simp)]
      rfl
  have htrio : ([mkLine "STATUS" (statusLine t.status),
      mkLine "SUMMARY" t.summary, mkLine "UID" t.uid]).filter
        (fun l => lineName l == "CATEGORIES") = [] := by
    rw [List.filter_cons_of_neg (by
      rw [hbeq _ (by rw [lineName_STATUS]; decide)]
      simp)]
    rw [List.filter_cons_of_neg (by
      rw [hbeq _ (by rw [lineName_SUMMARY]; decide)]
      simp)]
    rw [List.filter_cons_of_neg (by
      rw [hbeq _ (by rw [lineName_UID]; decide)]
      simp)]
    rfl
  have hrel : (relatedLines t).filter (fun l => lineName l == "CATEGORIES") = [] := by
    rw [relatedLines, List.filter_append]
    have hdeps : (t.dependencies.map
        (fun d => mkLine "RELATED-TO;RELTYPE=DEPENDS-ON" d)).filter
          (fun l => lineName l == "CATEGORIES") = [] := by
      induction t.dependencies with
      | nil => rfl
      | cons d rest ih =>
        rw [List.map_cons, List.filter_cons_of_neg (by
          rw [hbeq _ (by rw [lineName_DEP]; decide)]
          simp)]
        exact ih
    cases t.parent_uid
    · rw [hdeps]
      rfl
    · rw [List.filter_cons_of_neg (by
        rw [hbeq _ (by rw [lineName_RELATED]; decide)]
        simp), hdeps]
      rfl
  have hcats : (categoriesLines t).filter (fun l => lineName l == "CATEGORIES") =
      categoriesLines t := by
    rw [categoriesLines]
    split
    · rfl
    · rw [List.filter_cons_of_pos (by rw [lineName_CATEGORIES]; simp)]
      rfl
  rw [innerLines]
  simp only [List.filter_append, hdesc, hdt1, hdts, hdue, hprio, hrr, htrio,
    hrel, hcats, List.nil_append]

/-! ### Claim C7 — RELATED-TO scan lemmas -/

theorem isPrefixOf_self_append (p x : List Char) :
    List.isPrefixOf p (p ++ x) = true := by
  induction p with
  | nil => simp [List.isPrefixOf]
  | cons c cs ih => simp [List.isPrefixOf, ih]

theorem startsWith_related_parent (v : String) :
    startsWithS (mkLine "RELATED-TO" v) "RELATED-TO" = true := by
  rw [startsWithS, mkLine_data]
  exact isPrefixOf_self_append _ _

theorem startsWith_related_dep (v : String) :
    startsWithS (mkLine "RELATED-TO;RELTYPE=DEPENDS-ON" v) "RELATED-TO" =
      true := by
  rw [startsWithS]
  have h1 : (mkLine "RELATED-TO;RELTYPE=DEPENDS-ON" v).data =
      ("RELATED-TO" : String).data ++
        (';' :: (("RELTYPE=DEPENDS-ON" : String).data ++ ':' :: v.data)) := by
    rw [mkLine_data, show ("RELATED-TO;RELTYPE=DEPENDS-ON" : String).data =
      ("RELATED-TO" : String).data ++ ';' ::
        ("RELTYPE=DEPENDS-ON" : String).data from by decide]
    simp
  rw [h1]
  exact isPrefixOf_self_append _ _

theorem startsWith_related_false_of_head (l : String) (c : Char)
    (rest : List Char) (hl : l.data = c :: rest) (hc : ¬c = 'R') :
    startsWithS l "RELATED-TO" = false := by
  rw [startsWithS, hl,
    show ("RELATED-TO" : String).data = 'R' :: ("ELATED-TO" : String).data
      from rfl]
  simp [List.isPrefixOf]
  intro he
  exact absurd he.symm hc

theorem startsWith_related_false_rrule (v : String) :
    startsWithS (mkLine "RRULE" v) "RELATED-TO" = false := by
  have h1 : (mkLine "RRULE" v).data =
      'R' :: 'R' :: (("ULE" : String).data ++ ':' :: v.data) := by
    rw [mkLine_data]
    rfl
  rw [startsWithS, h1, show ("RELATED-TO" : String).data =
    'R' :: 'E' :: ("LATED-TO" : String).data from rfl]
  simp [List.isPrefixOf]

theorem relStep_skip (st : Option String × List String) (l : String)
    (h : startsWithS l "RELATED-TO" = false) : relStep st l = st := by
  simp [relStep, h]

theorem relScan_all_skip (a : List String)
    (h : ∀ l ∈ a, startsWithS l "RELATED-TO" = false) :
    ∀ (b : List String) (st : Option String × List String),
      relScan (a ++ b) st = relScan b st := by
  induction a with
  | nil => intro b st; rfl
  | cons l ls ih =>
    intro b st
    rw [List.cons_append, relScan, List.foldl_cons,
      relStep_skip st l (h l (List.mem_cons_self l ls))]
    exact ih (fun x hx => h x (List.mem_cons_of_mem l hx)) b st

theorem relScan_nil_skip (a : List String)
    (h : ∀ l ∈ a, startsWithS l "RELATED-TO" = false)
    (st : Option String × List String) : relScan a st = st := by
  have := relScan_all_skip a h [] st
  simpa using this

theorem relStep_parent (st : Option String × List String) (p : String) :
    relStep st (mkLine "RELATED-TO" p) = (some (trimS p), st.2) := by
  have h2 : splitOnceColon (mkLine "RELATED-TO" p).data =
      some (("RELATED-TO" : String).data, p.data) := by
    rw [mkLine_data]
    exact splitOnceColon_append _ _ (by decide)
  have h3 : toUpperS (String.mk ("RELATED-TO" : String).data) =
      "RELATED-TO" := by decide
  have h4 : strContains "RELATED-TO" "RELTYPE=DEPENDS-ON" = false := by decide
  have h5 : strContains "RELATED-TO" "RELTYPE=" = false := by decide
  simp [relStep, startsWith_related_parent, h2, h3, h4, h5, mk_data]

theorem relStep_dep (st : Option String × List String) (d : String) :
    relStep st (mkLine "RELATED-TO;RELTYPE=DEPENDS-ON" d) =
      (st.1, if st.2.contains (trimS d) then st.2 else st.2 ++ [trimS d]) := by
  have h2 : splitOnceColon (mkLine "RELATED-TO;RELTYPE=DEPENDS-ON" d).data =
      some (("RELATED-TO;RELTYPE=DEPENDS-ON" : String).data, d.data) := by
    rw [mkLine_data]
    exact splitOnceColon_append _ _ (by decide)
  have h3 : toUpperS (String.mk ("RELATED-TO;RELTYPE=DEPENDS-ON" : String).data) =
      "RELATED-TO;RELTYPE=DEPENDS-ON" := by decide
  have h4 : strContains "RELATED-TO;RELTYPE=DEPENDS-ON" "RELTYPE=DEPENDS-ON" =
      true := by decide
  simp [relStep, startsWith_related_dep, h2, h3, h4, mk_data]

theorem contains_eq_false {l : List String} {a : String} (h : ¬a ∈ l) :
    l.contains a = false := by
  induction l with
  | nil => rfl
  | cons x xs ih =>
    simp only [List.mem_cons, not_or] at h
    rw [List.contains_cons]
    rw [ih h.2]
    simp [h.1]

/-- Scanning the dependency lines extends the accumulator in order,
without duplicates. -/
theorem relScan_deps (ds : List String) :
    ∀ (par : Option String) (acc : List String),
      (acc ++ ds).Nodup → (∀ d ∈ ds, trimS d = d) →
      relScan (ds.map (fun d => mkLine "RELATED-TO;RELTYPE=DEPENDS-ON" d))
        (par, acc) = (par, acc ++ ds) := by
  induction ds with
  | nil => intro par acc _ _; simp [relScan]
  | cons d rest ih =>
    intro par acc hnd htr
    have htd : trimS d = d := htr d (List.mem_cons_self d rest)
    have hdna : ¬d ∈ acc := by
      have hdisj := (List.nodup_append.mp hnd).2.2
      intro hmem
      exact hdisj hmem (List.mem_cons_self d rest)
    rw [List.map_cons, relScan, List.foldl_cons, relStep_dep, htd,
      contains_eq_false hdna]
    simp only [Bool.false_eq_true, if_false]
    have hnd' : ((acc ++ [d]) ++ rest).Nodup := by
      have hperm : (acc ++ d :: rest).Perm ((acc ++ [d]) ++ rest) := by
        simp
      exact hperm.nodup hnd
    have hrec := ih par (acc ++ [d]) hnd'
      (fun x hx => htr x (List.mem_cons_of_mem d hx))
    rw [relScan] at hrec
    rw [hrec]
    simp

/-- Scanning the RELATED-TO group yields the parent and the dependency
list. -/
theorem relScan_relatedLines (t : Task)
    (hp : ∀ p, t.parent_uid = some p → trimS p = p)
    (hd : ∀ d ∈ t.dependencies, trimS d = d)
    (hnd : t.dependencies.Nodup) :
    relScan (relatedLines t) (none, []) = (t.parent_uid, t.dependencies) := by
  rw [relatedLines]
  cases hpar : t.parent_uid with
  | none =>
    rw [List.nil_append]
    exact relScan_deps t.dependencies none [] (by simpa using hnd) hd
  | some p =>
    rw [List.singleton_append, relScan, List.foldl_cons, relStep_parent,
      hp p hpar]
    exact relScan_deps t.dependencies (some p) [] (by simpa using hnd) hd

/-! ### Claim C7 — full-document scan and round trip -/

theorem relScan_append (a b : List String)
    (st : Option String × List String) :
    relScan (a ++ b) st = relScan b (relScan a st) := by
  rw [relScan, relScan, relScan, List.foldl_append]

/-- A built line whose property name starts with a character other than
`R` does not start with `RELATED-TO`. -/
theorem startsWith_related_false_mk (nm v : String) (c : Char)
    (nr : List Char) (hnm : nm.data = c :: nr) (hc : ¬c = 'R') :
    startsWithS (mkLine nm v) "RELATED-TO" = false :=
  startsWith_related_false_of_head _ c _ (mkLine_data_cons nm v c nr hnm) hc

/-- The full RELATED-TO scan over an encoded document recovers the parent
and the dependency list (every other generated line is skipped). -/
theorem relScan_to_ics (ext : ChronoExt) (t : Task)
    (hp : ∀ p, t.parent_uid = some p → trimS p = p)
    (hd : ∀ d ∈ t.dependencies, trimS d = d)
    (hnd : t.dependencies.Nodup) :
    relScan (to_ics ext t) (none, []) = (t.parent_uid, t.dependencies) := by
  have hDesc : ∀ l ∈ descLines t, startsWithS l "RELATED-TO" = false := by
    rw [descLines]
    split
    · intro l hl; cases hl
    · intro l hl
      rw [List.mem_singleton] at hl
      exact hl ▸ startsWith_related_false_mk _ _ 'D' _ rfl (by decide)
  have hDtstart : ∀ l ∈ dtstartLines ext t,
      startsWithS l "RELATED-TO" = false := by
    rw [dtstartLines]
    cases t.dtstart
    · intro l hl; cases hl
    · intro l hl
      rw [List.mem_singleton] at hl
      exact hl ▸ startsWith_related_false_mk _ _ 'D' _ rfl (by decide)
  have hDue : ∀ l ∈ dueLines ext t, startsWithS l "RELATED-TO" = false := by
    rw [dueLines]
    cases t.due with
    | none =>
      cases t.estimated_duration with
      | none => intro l hl; cases hl
      | some m =>
        intro l hl
        rw [List.mem_singleton] at hl
        exact hl ▸ startsWith_related_false_mk _ _ 'D' _ rfl (by decide)
    | some i =>
      cases t.estimated_duration with
      | none =>
        intro l hl
        simp only [List.append_nil, List.mem_singleton] at hl
        exact hl ▸ startsWith_related_false_mk _ _ 'D' _ rfl (by decide)
      | some m =>
        intro l hl
        simp only [List.mem_append, List.mem_singleton] at hl
        rcases hl with hl | hl
        · exact hl ▸ startsWith_related_false_mk _ _ 'D' _ rfl (by decide)
        · exact hl ▸ startsWith_related_false_mk _ _ 'X' _ rfl (by decide)
  have hPrio : ∀ l ∈ priorityLines t,
      startsWithS l "RELATED-TO" = false := by
    rw [priorityLines]
    split
    · intro l hl
      rw [List.mem_singleton] at hl
      exact hl ▸ startsWith_related_false_mk _ _ 'P' _ rfl (by decide)
    · intro l hl; cases hl
  have hRrule : ∀ l ∈ rruleLines t, startsWithS l "RELATED-TO" = false := by
    rw [rruleLines]
    cases t.rrule
    · intro l hl; cases hl
    · intro l hl
      rw [List.mem_singleton] at hl
      exact hl ▸ startsWith_related_false_rrule _
  have hY : ∀ l ∈ (descLines t ++ [mkLine "DTSTAMP" (ext.fmt ext.now)] ++
      dtstartLines ext t ++ dueLines ext t ++ priorityLines t ++
      rruleLines t ++ [mkLine "STATUS" (statusLine t.status),
        mkLine "SUMMARY" t.summary, mkLine "UID" t.uid]),
      startsWithS l "RELATED-TO" = false := by
    intro l hl
    rcases List.mem_append.mp hl with hl | h
    rotate_left
    · rcases List.mem_cons.mp h with h' | h'
      · exact h' ▸ startsWith_related_false_mk _ _ 'S' _ rfl (by decide)
      rcases List.mem_cons.mp h' with h'' | h''
      · exact h'' ▸ startsWith_related_false_mk _ _ 'S' _ rfl (by decide)
      rw [List.mem_singleton] at h''
      exact h'' ▸ startsWith_related_false_mk _ _ 'U' _ rfl (by decide)
    rcases List.mem_append.mp hl with hl | h
    rotate_left
    · exact hRrule l h
    rcases List.mem_append.mp hl with hl | h
    rotate_left
    · exact hPrio l h
    rcases List.mem_append.mp hl with hl | h
    rotate_left
    · exact hDue l h
    rcases List.mem_append.mp hl with hl | h
    rotate_left
    · exact hDtstart l h
    rcases List.mem_append.mp hl with hl | h
    rotate_left
    · rw [List.mem_singleton] at h
      exact h ▸ startsWith_related_false_mk _ _ 'D' _ rfl (by decide)
    · exact hDesc l hl
  have hCats : ∀ l ∈ categoriesLines t,
      startsWithS l "RELATED-TO" = false := by
    rw [categoriesLines]
    split
    · intro l hl; cases hl
    · intro l hl
      rw [List.mem_singleton] at hl
      exact hl ▸ startsWith_related_false_mk _ _ 'C' _ rfl (by decide)
  have hTail : ∀ l ∈ (["END:VTODO", "END:VCALENDAR"] : List String),
      startsWithS l "RELATED-TO" = false := by decide
  have hPre : relScan ["BEGIN:VCALENDAR", "VERSION:2.0",
      "PRODID:ICALENDAR-RS", "CALSCALE:GREGORIAN", "BEGIN:VTODO"]
      ((none : Option String), ([] : List String)) = (none, []) := by decide
  rw [to_ics, innerLines, relScan_append, relScan_append, hPre,
    relScan_append, relScan_append, relScan_nil_skip _ hY,
    relScan_relatedLines t hp hd hnd, relScan_nil_skip _ hCats,
    relScan_nil_skip _ hTail]

/-- The encoded document always contains the `BEGIN:VTODO` marker. -/
theorem hasVTodo_to_ics (ext : ChronoExt) (t : Task) :
    hasVTodo (to_ics ext t) = true := by
  rw [hasVTodo, to_ics]
  exact List.elem_eq_true_of_mem (List.mem_append_left _
    (List.mem_append_left _ (by decide)))

/-- Decoding the generated STATUS keyword returns the original status. -/
theorem decodeStatus_inner (ext : ChronoExt) (t : Task) :
    decodeStatus (innerLines ext t) = t.status := by
  rw [decodeStatus, getProp_inner_STATUS]
  cases t.status <;> decide

/-- The chrono contract for one instant: `format("%Y%m%dT%H%M%SZ")` yields
a 16-character `Z`-terminated value that the `%Y%m%dT%H%M%SZ` parser maps
back to the instant. -/
def fmtOk (ext : ChronoExt) (i : Int) : Prop :=
  (ext.fmt i).data.length = 16 ∧ (ext.fmt i).data.getLast? = some 'Z' ∧
  ext.parse16 (ext.fmt i) = some i

/-- Decoding the generated DUE value returns the original instant. -/
theorem decodeDue_inner (ext : ChronoExt) (t : Task)
    (h : ∀ i, t.due = some i → fmtOk ext i) :
    decodeDue ext (innerLines ext t) = t.due := by
  rw [decodeDue, getProp_inner_DUE]
  cases hd : t.due with
  | none => rfl
  | some i =>
    obtain ⟨h16, hz, hpr⟩ := h i hd
    have hne8 : ¬(ext.fmt i).data.length = 8 := by rw [h16]; decide
    show (if (ext.fmt i).data.length = 8
        then (ext.parse8 (ext.fmt i)).map (fun j => j + 86399)
        else parse_date_prop ext (ext.fmt i)) = some i
    rw [if_neg hne8, parse_date_prop, if_neg hne8, if_pos hz, hpr]

/-- Decoding the generated DTSTART value returns the original instant. -/
theorem dtstart_inner (ext : ChronoExt) (t : Task)
    (h : ∀ i, t.dtstart = some i → fmtOk ext i) :
    (getProp (innerLines ext t) "DTSTART").bind (parse_date_prop ext) =
      t.dtstart := by
  rw [getProp_inner_DTSTART]
  cases hd : t.dtstart with
  | none => rfl
  | some i =>
    obtain ⟨h16, hz, hpr⟩ := h i hd
    have hne8 : ¬(ext.fmt i).data.length = 8 := by rw [h16]; decide
    show parse_date_prop ext (ext.fmt i) = some i
    rw [parse_date_prop, if_neg hne8, if_pos hz, hpr]

theorem map_replaceCommaEsc_id (cs : List String)
    (h : ∀ c ∈ cs, ¬ ',' ∈ c.data) : cs.map replaceCommaEsc = cs := by
  induction cs with
  | nil => rfl
  | cons c rest ih =>
    rw [List.map_cons, replaceCommaEsc_id c (h c (List.mem_cons_self c rest)),
      ih (fun x hx => h x (List.mem_cons_of_mem c hx))]

/-- Decoding the generated CATEGORIES line preserves the category set when
no category contains a comma. -/
theorem decodeCategories_inner (ext : ChronoExt) (t : Task)
    (h : ∀ c ∈ t.categories, ¬ ',' ∈ c.data ∧ trimS c = c ∧ ¬c = "") :
    ∀ s, s ∈ decodeCategories (innerLines ext t) ↔ s ∈ t.categories := by
  intro s
  rw [decodeCategories, filter_inner_cats, categoriesLines]
  by_cases hemp : t.categories = []
  · rw [if_pos hemp, hemp]
    simp [sortStr, dedupConsec]
  · rw [if_neg hemp]
    simp only [List.flatMap_cons, List.flatMap_nil, List.append_nil,
      lineValue_CATEGORIES]
    rw [map_replaceCommaEsc_id _ (fun c hcm => (h c hcm).1),
      splitComma_joinComma _ hemp (fun c hcm => (h c hcm).1),
      map_trim_id _ (fun c hcm => (h c hcm).2.1),
      filter_nonempty_id _ (fun c hcm => (h c hcm).2.2),
      mem_dedupConsec, mem_sortStr]

/-- Validity of a task for the round-trip statement: categories are
nonblank, trimmed and comma-free; the parent uid and the dependency uids
are trimmed; the dependency list carries no duplicates; every stored
instant obeys the chrono format contract. -/
def TaskValid (ext : ChronoExt) (t : Task) : Prop :=
  (∀ c ∈ t.categories, ¬ ',' ∈ c.data ∧ trimS c = c ∧ ¬c = "") ∧
  (∀ p, t.parent_uid = some p → trimS p = p) ∧
  (∀ d ∈ t.dependencies, trimS d = d) ∧
  t.dependencies.Nodup ∧
  (∀ i, t.due = some i → fmtOk ext i) ∧
  (∀ i, t.dtstart = some i → fmtOk ext i)

set_option maxHeartbeats 2000000 in
/-- Claim C7 (amended): for a valid task — comma-free, trimmed, nonblank
categories, trimmed parent and dependency uids, duplicate-free
dependencies, chrono-roundtrippable instants — decoding the encoded
document succeeds and preserves uid, summary, status, due, dtstart, the
category set, the recurrence rule, the parent link and the depends-on
links.  The comma-escape clause of the original claim is dropped: the
decoder splits the CATEGORIES value on every comma without honoring the
escape written by the encoder. -/
theorem c7_roundtrip (ext : ChronoExt) (t : Task) (etag href cal : String)
    (hv : TaskValid ext t) :
    ∃ u, from_ics ext (to_ics ext t) etag href cal = Except.ok u ∧
      u.uid = t.uid ∧ u.summary = t.summary ∧ u.status = t.status ∧
      u.due = t.due ∧ u.dtstart = t.dtstart ∧
      (∀ s, s ∈ u.categories ↔ s ∈ t.categories) ∧
      u.rrule = t.rrule ∧ u.parent_uid = t.parent_uid ∧
      u.dependencies = t.dependencies := by
  obtain ⟨hcat, hpar, hdep, hnodup, hdue, hdts⟩ := hv
  have hblock := vtodoBlock_to_ics ext t
  have hrel := relScan_to_ics ext t hpar hdep hnodup
  rw [from_ics, if_pos (hasVTodo_to_ics ext t)]
  refine ⟨_, rfl, ?_, ?_, ?_, ?_, ?_, ?_, ?_, ?_, ?_⟩
  · show (getProp (vtodoBlock (to_ics ext t)) "UID").getD "" = t.uid
    rw [hblock, getProp_inner_UID, Option.getD_some]
  · show (getProp (vtodoBlock (to_ics ext t)) "SUMMARY").getD "No Title" =
      t.summary
    rw [hblock, getProp_inner_SUMMARY, Option.getD_some]
  · show decodeStatus (vtodoBlock (to_ics ext t)) = t.status
    rw [hblock]
    exact decodeStatus_inner ext t
  · show decodeDue ext (vtodoBlock (to_ics ext t)) = t.due
    rw [hblock]
    exact decodeDue_inner ext t hdue
  · show (getProp (vtodoBlock (to_ics ext t)) "DTSTART").bind
      (parse_date_prop ext) = t.dtstart
    rw [hblock]
    exact dtstart_inner ext t hdts
  · show ∀ s, s ∈ decodeCategories (vtodoBlock (to_ics ext t)) ↔
      s ∈ t.categories
    rw [hblock]
    exact decodeCategories_inner ext t hcat
  · show getProp (vtodoBlock (to_ics ext t)) "RRULE" = t.rrule
    rw [hblock]
    exact getProp_inner_RRULE ext t
  · show (relScan (to_ics ext t) (none, [])).1 = t.parent_uid
    rw [hrel]
  · show (relScan (to_ics ext t) (none, [])).2 = t.dependencies
    rw [hrel]

/-- A task whose single category contains a comma. -/
def catTask : Task :=
  { uid := "u7", summary := "s7", description := "", status := .NeedsAction,
    priority := 0, due := none, dtstart := none, estimated_duration := none,
    rrule := none, parent_uid := none, dependencies := [],
    categories := ["a,b"], calendar_href := "c", href := "", etag := "",
    depth := 0 }

/-- Claim C7 counterexample: the encoder escapes the comma inside the
category `a,b` as `a\,b`, but the decoder splits the CATEGORIES value on
every comma without honoring the escape, so the category set is not
preserved by the round trip. -/
theorem c7_roundtrip_counterexample :
    "a,b" ∈ catTask.categories ∧
    (from_ics ext0 (to_ics ext0 catTask) "e" "h" "c").toOption.map
      (fun u => u.categories.contains "a,b") = some false := by decide

/-- A chrono bundle for the round-trip witness: a two-point format table
together with its inverse parser. -/
def extW : ChronoExt :=
  { now := 0
    fmt := fun i => if i = 50 then "20240101T000050Z"
      else if i = 100 then "20240101T000140Z" else "20240101T000000Z"
    parse16 := fun s => if s = "20240101T000050Z" then some 50
      else if s = "20240101T000140Z" then some 100 else none
    parse8 := fun _ => none
    parseLocal := fun _ => none }

/-- A fully populated valid task for the round-trip witness. -/
def taskW : Task :=
  { uid := "w1", summary := "write report", description := "",
    status := .Completed, priority := 0, due := some 100, dtstart := some 50,
    estimated_duration := none, rrule := some "FREQ=DAILY",
    parent_uid := some "p1", dependencies := ["d1", "d2"],
    categories := ["home", "work"], calendar_href := "c", href := "",
    etag := "", depth := 0 }

/-- Witness for C7: the round trip on a concrete fully populated valid
task. -/
theorem c7_roundtrip_witness :
    TaskValid extW taskW ∧
    (∃ u, from_ics extW (to_ics extW taskW) "e" "h" "c" = Except.ok u ∧
      u.uid = taskW.uid ∧ u.summary = taskW.summary ∧
      u.status = taskW.status ∧ u.due = taskW.due ∧
      u.dtstart = taskW.dtstart ∧
      (∀ s, s ∈ u.categories ↔ s ∈ taskW.categories) ∧
      u.rrule = taskW.rrule ∧ u.parent_uid = taskW.parent_uid ∧
      u.dependencies = taskW.dependencies) := by
  have hv : TaskValid extW taskW := by
    refine ⟨by decide, ?_, by decide, by decide, ?_, ?_⟩
    · intro p hp
      obtain rfl : "p1" = p := Option.some.inj
        ((show taskW.parent_uid = some "p1" from rfl).symm.trans hp)
      decide
    · intro i hi
      obtain rfl : (100 : Int) = i := Option.some.inj
        ((show taskW.due = some 100 from rfl).symm.trans hi)
      exact ⟨by decide, by decide, by decide⟩
    · intro i hi
      obtain rfl : (50 : Int) = i := Option.some.inj
        ((show taskW.dtstart = some 50 from rfl).symm.trans hi)
      exact ⟨by decide, by decide, by decide⟩
  exact ⟨hv, c7_roundtrip extW taskW "e" "h" "c" hv⟩

end Rustache
